import Mathlib

/-!
Shallow embedding of the RDK resource manager (`robotimpl` package) and the
lazy-encoded image (`rimage` package), together with theorems settling the
frozen claims about them.

The manager functions (`updateRemoteResourceNames`, `updateRemotesResourceNames`,
`ResourceRPCAPIs`, `mergeResourceRPCAPIsWithRemote`, `ResourceByName`,
`updateResources`, `markResourceForUpdate`, `markChildrenForUpdate`,
`completeConfig`, `remoteDialOptions`, `processRemote`, `cleanAppImageEnv`,
`ResourceNames`) are translated from the source.  The supporting data
structures (`resource.Graph`, `resource.GraphNode`, `resource.Name`) live in
the repository outside the provided sources, so they are modelled from the
spec (sections 3, 4.1, 4.2); each such definition says so in its doc comment.
Go maps are modelled as association lists, pointer mutation as functional
update, and external collaborators (remote robots, the module manager, the
dialer, the OS) as explicit oracle parameters.
-/

namespace RDK

deriving instance DecidableEq for Except

/-- Modelled from the spec: a resource API is the `(namespace, type, subtype)`
triple identifying a resource contract (spec section 3). -/
structure API where
  nsp : String
  typeName : String
  subtypeName : String
deriving DecidableEq, Repr

/-- Modelled from the spec: `IsComponent` holds of APIs whose type is `component`. -/
def API.isComponent (a : API) : Bool := a.typeName = "component"

/-- Modelled from the spec: `IsService` holds of APIs whose type is `service`. -/
def API.isService (a : API) : Bool := a.typeName = "service"

/-- The RDK-internal namespace (`resource.APINamespaceRDKInternal`). -/
def internalNamespace : String := "rdk-internal"

/-- Modelled from the spec: `client.RemoteAPI`, the API of remote-node entries. -/
def remoteAPI : API := ⟨"rdk", "remote", "robot"⟩

/-- Embeds `shell.API`, the API of the shell service. -/
def shellAPI : API := ⟨"rdk", "service", "shell"⟩

/-- Modelled from the spec: a resource name is a triple of API, remote path
(a possibly-empty ordered list of remote hops) and local name (spec section 3). -/
structure RName where
  api : API
  remote : List String
  name : String
deriving DecidableEq, Repr

/-- Embeds `Name.ContainsRemoteNames`: the remote path is nonempty. -/
def RName.containsRemoteNames (n : RName) : Bool := !n.remote.isEmpty

/-- Modelled from the spec: `Name.PrependRemote` produces a fully qualified
remote-scoped name by prepending one remote hop. -/
def RName.prependRemote (n : RName) (r : String) : RName :=
  { n with remote := r :: n.remote }

/-- A resource model `(Family, Name)` distinguishing driver implementations. -/
structure RModel where
  family : String
  modelName : String
deriving DecidableEq, Repr

/-- Embeds `unknownModel`: sentinel for resources discovered via a remote. -/
def unknownModel : RModel := ⟨"rdk:builtin", "unknown"⟩

/-- Embeds `builtinModel`: sentinel for natively constructed resources. -/
def builtinModel : RModel := ⟨"rdk:builtin", "builtin"⟩

/-- Errors surfaced by the manager and by graph nodes. -/
inductive RErr where
  | notInitialized
  | buildFailed (msg : String)
  | notFound (n : RName)
  | notAvailable (n : RName) (cause : RErr)
  | remoteResourceClash (localName : String)
  | missingClientRegistration
  | shellServiceDisabled
  | processesDisabled
  | nodeMissing
  | other (msg : String)
deriving DecidableEq, Repr

/-- A live resource handle: either a remote-robot client (identified by a
stub id resolved through the environment), a remote resource client, or a
locally built driver. -/
inductive RHandle where
  | robotStub (id : Nat)
  | client (id : Nat)
  | localRes (id : Nat)
deriving DecidableEq, Repr

/-- Embeds `resource.Config`: declarative description of one resource.  Attributes
are opaque to the graph and modelled by a number. -/
structure RConfig where
  api : API
  name : String
  model : RModel
  attrs : Nat
  deps : List RName
deriving DecidableEq, Repr

/-- Embeds `Config.ResourceName()`. -/
def RConfig.resourceName (c : RConfig) : RName := ⟨c.api, [], c.name⟩

/-- Embeds `rpc.Credentials`. -/
structure Credentials where
  credType : String
  payload : String
deriving DecidableEq, Repr

/-- Embeds `config.AuthConfig` for a remote. -/
structure RemoteAuth where
  credentials : Option Credentials
  entity : String
  externalAuthAddress : String
  externalAuthToEntity : String
  externalAuthInsecure : Bool
  signalingServerAddress : String
  signalingAuthEntity : String
  signalingCreds : Option Credentials
  managed : Bool
deriving DecidableEq, Repr

/-- Embeds `config.Remote`: the declarative description of a remote robot. -/
structure RemoteConf where
  rname : String
  address : String
  insecure : Bool
  auth : RemoteAuth
deriving DecidableEq, Repr

/-- The config stored on a graph node: either a resource config with its
symbolic dependencies, a remote config carried in `ConvertedAttributes`, or
the zero config. -/
inductive NodeCfg where
  | res (c : RConfig)
  | rem (rc : RemoteConf)
  | empty
deriving DecidableEq, Repr

/-- Modelled from the spec: a graph node (spec sections 3 and 4.2).  It holds
the optional live resource handle with its model, the config state, the
needs-reconfigure and needs-update bits, the last error, the removal mark and
a closed flag. -/
structure GNode where
  resource : Option RHandle
  model : Option RModel
  cfg : NodeCfg
  needsReconf : Bool
  needsUpd : Bool
  lastErr : Option RErr
  marked : Bool
  closed : Bool
deriving DecidableEq, Repr

/-- Modelled from the spec: `NewConfiguredGraphNode(config, res, model)`. -/
def GNode.configured (cfg : NodeCfg) (res : RHandle) (model : RModel) : GNode :=
  ⟨some res, some model, cfg, false, false, none, false, false⟩

/-- Modelled from the spec: `NewUnconfiguredGraphNode(config, deps)`: an
uninitialized node carrying a pending config, needing reconfigure. -/
def GNode.unconfigured (cfg : NodeCfg) : GNode :=
  ⟨none, none, cfg, true, false, none, false, false⟩

/-- Embeds `GraphNode.IsUninitialized`: no resource has ever been swapped in. -/
def GNode.isUninitialized (nd : GNode) : Bool := nd.resource.isNone

/-- Embeds `GraphNode.HasResource`. -/
def GNode.hasResource (nd : GNode) : Bool := nd.resource.isSome

/-- Embeds `GraphNode.NeedsReconfigure`: the node must be (re)built, because its own
config changed or an ancestor rebuilt (spec section 3). -/
def GNode.needsReconfigure (nd : GNode) : Bool := nd.needsReconf || nd.needsUpd

/-- Modelled from the spec: `GraphNode.Resource()` returns the handle when and
only when the node has been successfully built at least once and is not in a
fatal state; when the last build failed it returns the stored cause
(spec section 4.2). -/
def GNode.resourceExc (nd : GNode) : Except RErr RHandle :=
  match nd.resource with
  | none => .error .notInitialized
  | some r =>
    match nd.lastErr with
    | some e => .error e
    | none => .ok r

/-- Embeds `GraphNode.UnsafeResource()`: the handle even if the node last failed. -/
def GNode.unsafeResource (nd : GNode) : Except RErr RHandle :=
  match nd.resource with
  | none => .error .notInitialized
  | some r => .ok r

/-- Embeds `GraphNode.SwapResource(res, model)`: install the handle and clear the
needs-reconfigure, needs-update bits and last error (spec section 4.2). -/
def GNode.swap (nd : GNode) (res : RHandle) (model : RModel) : GNode :=
  { nd with resource := some res, model := some model,
            needsReconf := false, needsUpd := false, lastErr := none }

/-- Embeds `GraphNode.SetNeedsUpdate`: an ancestor changed. -/
def GNode.setNeedsUpdate (nd : GNode) : GNode := { nd with needsUpd := true }

/-- Embeds `GraphNode.SetNewConfig(conf, deps)`: record the new config and set the
needs-reconfigure bit. -/
def GNode.setNewConfig (nd : GNode) (cfg : NodeCfg) : GNode :=
  { nd with cfg := cfg, needsReconf := true }

/-- Embeds `GraphNode.SetLastError`. -/
def GNode.setLastError (nd : GNode) (e : RErr) : GNode := { nd with lastErr := some e }

/-- Embeds `GraphNode.Close`: release the handle and mark the node closed. -/
def GNode.closeNode (nd : GNode) : GNode := { nd with resource := none, closed := true }

/-- Association-list lookup, the model of Go map indexing. -/
def alookup {α β : Type} [DecidableEq α] : List (α × β) → α → Option β
  | [], _ => none
  | p :: t, x => if p.1 = x then some p.2 else alookup t x

/-- Modelled from the spec: the typed dependency graph (spec section 4.1).
Nodes are an association list keyed by name (insertion-ordered, standing in
for Go's map), and each edge `(child, parent)` means the child depends on the
parent. -/
structure Graph where
  nodes : List (RName × GNode)
  edges : List (RName × RName)
deriving DecidableEq, Repr

/-- Embeds `Graph.Names()`. -/
def Graph.names (g : Graph) : List RName := g.nodes.map Prod.fst

/-- Embeds `Graph.Node(name)`. -/
def Graph.node (g : Graph) (n : RName) : Option GNode :=
  alookup g.nodes n

/-- Update the node stored under a name in place (pointer mutation of the
`*GraphNode` in Go). -/
def Graph.setNode (g : Graph) (n : RName) (f : GNode → GNode) : Graph :=
  { g with nodes := g.nodes.map (fun p => if p.1 = n then (p.1, f p.2) else p) }

/-- Modelled from the spec: `Graph.AddNode(name, node)` inserts a node and
fails if the name is already present (spec section 4.1). -/
def Graph.addNode (g : Graph) (n : RName) (nd : GNode) : Except RErr Graph :=
  if (g.node n).isSome then .error (.other "node already exists")
  else .ok { g with nodes := g.nodes ++ [(n, nd)] }

/-- Direct children of a name: all `c` with an edge `(c, n)`. -/
def Graph.childrenOf (g : Graph) (n : RName) : List RName :=
  (g.edges.filter (fun e => e.2 = n)).map Prod.fst

/-- Does `x` reach `target` by following child-to-parent edges?  Fuel-bounded
depth-first search. -/
def reachesAux (edges : List (RName × RName)) : Nat → RName → RName → Bool
  | 0, _, _ => false
  | fuel + 1, x, target =>
    x = target ||
      (edges.filter (fun e => e.1 = x)).any (fun e => reachesAux edges fuel e.2 target)

/-- Modelled from the spec: `Graph.SubGraphFrom(root)` gathers the root and
all of its transitive children (the dependents); it fails when the root is
not in the graph (spec section 4.1).  Only the name set matters to callers in
this development, so the subgraph is returned as its list of names. -/
def Graph.subGraphFrom (g : Graph) (root : RName) : Except RErr (List RName) :=
  if (g.node root).isSome then
    .ok (g.names.filter (fun x => reachesAux g.edges (g.edges.length + 1) x root))
  else .error .nodeMissing

/-- Modelled from the spec: `Graph.AddChild(child, parent)` inserts the edge
`child depends on parent`, failing on a cycle (spec section 4.1). -/
def Graph.addChild (g : Graph) (c p : RName) : Except RErr Graph :=
  if c = p then .error (.other "self cycle")
  else if reachesAux g.edges (g.edges.length + 1) p c then .error (.other "cycle")
  else if g.edges.contains (c, p) then .ok g
  else .ok { g with edges := g.edges ++ [(c, p)] }

/-- Embeds `Graph.GetAllParentsOf(name)`. -/
def Graph.parentsOf (g : Graph) (n : RName) : List RName :=
  (g.edges.filter (fun e => e.1 = n)).map Prod.snd

/-- Embeds `Graph.RemoveChild(child, parent)` erases one edge. -/
def Graph.removeChild (g : Graph) (c p : RName) : Graph :=
  { g with edges := g.edges.filter (fun e => ¬(e.1 = c ∧ e.2 = p)) }

/-- Modelled from the spec: `Graph.FindNodesByShortNameAndAPI(name)`, the
partial-match resolver: every present name with the same API and local name,
across all remotes (spec section 4.1). -/
def Graph.findNodesByShortNameAndAPI (g : Graph) (n : RName) : List RName :=
  g.names.filter (fun k => k.api = n.api ∧ k.name = n.name)

/-- The face of a connected remote robot used by the manager: its current
resource names, the per-name client lookup (`ResourceByName`, which may fail
with a missing-client-registration error), and its RPC APIs. -/
structure RemoteRobotData where
  resourceNames : List RName
  resourceByName : RName → Except RErr RHandle
  rpcAPIs : List (API × String)

/-- External environment: resolves a stored robot-stub handle back to the
remote robot behind it (the Go type assertion `res.(internalRemoteRobot)`). -/
structure RobotEnv where
  asRobot : RHandle → Option RemoteRobotData

/-- Embeds `remoteResourceNames`: the direct children of the remote node whose names
carry a remote prefix. -/
def remoteResourceNames (g : Graph) (remoteName : RName) : List RName :=
  (g.childrenOf remoteName).filter (fun c => c.containsRemoteNames)

/-- One iteration of `markChildrenForUpdate`: skip the root and
remote-prefixed names, set the needs-update bit on everything else. -/
def markStep (rName : RName) (g : Graph) (name : RName) : Graph :=
  if name = rName ∨ name.containsRemoteNames then g
  else
    match g.node name with
    | none => g
    | some _ => g.setNode name GNode.setNeedsUpdate

/-- Embeds `markChildrenForUpdate(rName)`: walk the subgraph rooted at `rName` and
set the needs-update bit on every member other than the root and other than
remote-prefixed names. -/
def markChildrenForUpdate (g : Graph) (rName : RName) : Except RErr Graph :=
  match g.subGraphFrom rName with
  | .error e => .error e
  | .ok sorted => .ok (sorted.foldl (markStep rName) g)

/-- Intermediate state of `updateRemoteResourceNames`: the graph, the
anything-changed flag, and the old names marked active so far (the `true`
entries of Go's `activeResourceNames` map). -/
structure URState where
  g : Graph
  changed : Bool
  active : List RName

/-- Node installation inside the first loop of `updateRemoteResourceNames`:
swap the client into an existing node, or insert a fresh configured node
(model `unknown`). -/
def urInstall (g : Graph) (resName : RName) (res : RHandle) : Graph :=
  match g.node resName with
  | some _ => g.setNode resName (fun nd => nd.swap res unknownModel)
  | none =>
    match g.addNode resName (GNode.configured .empty res unknownModel) with
    | .ok g1 => g1
    | .error _ => g

/-- Edge attachment inside the first loop of `updateRemoteResourceNames`:
re-attach the `child depends on remote-node` edge, reporting success. -/
def urAttach (g : Graph) (resName remoteName : RName) : Graph × Bool :=
  match g.addChild resName remoteName with
  | .ok g2 => (g2, true)
  | .error _ => (g, false)

/-- One iteration of the first loop of `updateRemoteResourceNames`: fetch the
client for one of the remote's current names, prepend the remote prefix, mark
it active when it is an old name, and add or swap the node and its edge to
the remote node. -/
def updateRemoteStep (remoteName : RName) (rr : RemoteRobotData)
    (oldResources : List RName) (st : URState) (resName0 : RName) : URState :=
  match rr.resourceByName resName0 with
  | .error _ => st
  | .ok res =>
    let resName := resName0.prependRemote remoteName.name
    let alreadyCurrent := oldResources.contains resName
    let st1 : URState :=
      if alreadyCurrent then { st with active := resName :: st.active } else st
    if alreadyCurrent && (match st.g.node resName with
        | some nd => !nd.isUninitialized
        | none => false) then st1
    else
      let g1 := urInstall st1.g resName res
      let att := urAttach g1 resName remoteName
      { st1 with g := att.1, changed := st1.changed || att.2 }

/-- One iteration of the removal loop of `updateRemoteResourceNames`: for an
old name no longer reported by the remote, mark its subgraph for update, then
close its node and record a change. -/
def removeRemoteStep (st : Graph × Bool) (resName : RName) : Graph × Bool :=
  match markChildrenForUpdate st.1 resName with
  | .error _ => st
  | .ok g1 =>
    match g1.node resName with
    | none => (g1, st.2)
    | some _ => (g1.setNode resName GNode.closeNode, true)

/-- Embeds `updateRemoteResourceNames(remoteName, rr)`: pull the remote's current
resource names, add or swap a node (model `unknown`) under the remote prefix
for each of them, then mark-for-update and close every old remote-origin node
the remote no longer reports.  Returns the updated graph and whether anything
changed. -/
def updateRemoteResourceNames (g : Graph) (remoteName : RName)
    (rr : RemoteRobotData) : Graph × Bool :=
  let oldResources := remoteResourceNames g remoteName
  let afterNew : URState :=
    rr.resourceNames.foldl (updateRemoteStep remoteName rr oldResources)
      ⟨g, false, []⟩
  let inactive := oldResources.filter (fun n => !afterNew.active.contains n)
  inactive.foldl removeRemoteStep (afterNew.g, afterNew.changed)

/-- One iteration of `updateRemotesResourceNames` over the graph's names.
Faithful to the Go line `anythingChanged = anythingChanged ||
manager.updateRemoteResourceNames(ctx, name, rr)`: Go's `||` short-circuits,
so once the flag is true the call is skipped entirely. -/
def updateRemotesStep (env : RobotEnv) (st : Graph × Bool) (name : RName) :
    Graph × Bool :=
  if name.api = remoteAPI then
    match st.1.node name with
    | none => st
    | some nd =>
      match nd.resourceExc with
      | .error _ => st
      | .ok res =>
        match env.asRobot res with
        | none => st
        | some rr =>
          if st.2 then (st.1, true)
          else updateRemoteResourceNames st.1 name rr
  else st

/-- Embeds `updateRemotesResourceNames`: one pull cycle over every node with the
remote API whose resource is retrievable and is a robot. -/
def updateRemotesResourceNames (env : RobotEnv) (g : Graph) : Graph × Bool :=
  g.names.foldl (updateRemotesStep env) (g, false)

/-- Embeds `ResourceNames()`: the names of all held resources, excluding remote-node
entries and the rdk-internal namespace, keeping only nodes that currently
hold a resource. -/
def ResourceNames (g : Graph) : List RName :=
  g.names.filter (fun k =>
    if k.api = remoteAPI ∨ k.api.nsp = internalNamespace then false
    else
      match g.node k with
      | none => false
      | some nd => nd.hasResource)

/-- A native resource currently held by the manager: its node holds a live
resource, and its name is neither a remote-node entry nor in the
rdk-internal namespace. -/
def isHeldNative (g : Graph) (n : RName) : Bool :=
  !(n.api = remoteAPI) && !(n.api.nsp = internalNamespace) &&
    (match g.node n with
     | some nd => nd.hasResource
     | none => false)

/-- A protobuf service descriptor, identified by its fully-qualified service
name. -/
structure ServiceDesc where
  fqn : String
deriving DecidableEq, Repr

/-- The native registry: `resource.RegisteredAPIs()` restricted to the
reflected RPC service descriptor of each registration (absent when the API is
unregistered or its registration carries no descriptor). -/
structure RegistryEnv where
  registeredAPIs : API → Option ServiceDesc

/-- Association-list lookup for the accumulated `types` map. -/
def typesLookup (types : List (API × ServiceDesc)) (a : API) : Option ServiceDesc :=
  alookup types a

/-- One entry of `mergeResourceRPCAPIsWithRemote`: keep a first-seen
descriptor, logging a clash when the remote's fully-qualified name differs;
record the remote's descriptor only for APIs not seen yet. -/
def mergeRemoteAPIStep (st : List (API × ServiceDesc) × List (String × String))
    (remoteType : API × String) : List (API × ServiceDesc) × List (String × String) :=
  match typesLookup st.1 remoteType.1 with
  | some d =>
    if d.fqn ≠ remoteType.2 then (st.1, st.2 ++ [(d.fqn, remoteType.2)])
    else st
  | none => (st.1 ++ [(remoteType.1, ⟨remoteType.2⟩)], st.2)

/-- Embeds `mergeResourceRPCAPIsWithRemote(r, types)`: fold the remote's RPC APIs
into the accumulated map, returning the map and the conflict log entries
(pairs of existing and remote fully-qualified service names). -/
def mergeResourceRPCAPIsWithRemote (rr : RemoteRobotData)
    (st : List (API × ServiceDesc) × List (String × String)) :
    List (API × ServiceDesc) × List (String × String) :=
  rr.rpcAPIs.foldl mergeRemoteAPIStep st

/-- One iteration of `ResourceRPCAPIs` over the graph's names: remote nodes
contribute through the merge; native, non-remote-prefixed names contribute
their registry descriptor when the API has no entry yet. -/
def resourceRPCAPIsStep (env : RobotEnv) (reg : RegistryEnv) (g : Graph)
    (st : List (API × ServiceDesc) × List (String × String)) (k : RName) :
    List (API × ServiceDesc) × List (String × String) :=
  if k.api.nsp = internalNamespace then st
  else if k.api = remoteAPI then
    match g.node k with
    | none => st
    | some nd =>
      if !nd.hasResource then st
      else
        match nd.resourceExc with
        | .error _ => st
        | .ok res =>
          match env.asRobot res with
          | none => st
          | some rr => mergeResourceRPCAPIsWithRemote rr st
  else if k.containsRemoteNames then st
  else if (typesLookup st.1 k.api).isSome then st
  else
    match reg.registeredAPIs k.api with
    | none => st
    | some d => (st.1 ++ [(k.api, d)], st.2)

/-- Embeds `ResourceRPCAPIs()`: union of native APIs and APIs contributed by each
connected remote, returned with the conflict log produced along the way. -/
def ResourceRPCAPIs (env : RobotEnv) (reg : RegistryEnv) (g : Graph) :
    List (API × ServiceDesc) × List (String × String) :=
  g.names.foldl (resourceRPCAPIsStep env reg g) ([], [])

/-- Embeds `ResourceByName(name)`: resolve a fully qualified name directly; an
unqualified absent name goes through partial match across remotes; a
remote-qualified absent name is not found. -/
def ResourceByName (g : Graph) (name : RName) : Except RErr RHandle :=
  match g.node name with
  | some nd =>
    match nd.resourceExc with
    | .error e => .error (.notAvailable name e)
    | .ok r => .ok r
  | none =>
    if !name.containsRemoteNames then
      let keys := g.findNodesByShortNameAndAPI name
      if keys.length > 1 then .error (.remoteResourceClash name.name)
      else
        match keys with
        | [k] =>
          match g.node k with
          | some nd =>
            match nd.resourceExc with
            | .error e => .error (.notAvailable name e)
            | .ok r => .ok r
          | none => .error (.notFound name)
        | _ => .error (.notFound name)
    else .error (.notFound name)

/-- Embeds `fromRemoteNameToRemoteNodeName`. -/
def fromRemoteNameToRemoteNodeName (name : String) : RName :=
  ⟨remoteAPI, [], name⟩

/-- Embeds `markResourceForUpdate(name, conf, deps)`: update an existing node's
configured state and erase its parent edges, or insert a fresh uninitialized
node (dependencies are carried inside the stored config in this model). -/
def markResourceForUpdate (g : Graph) (name : RName) (cfg : NodeCfg) : Graph :=
  match g.node name with
  | some _ =>
    let g1 := g.setNode name (fun nd => nd.setNewConfig cfg)
    (g1.parentsOf name).foldl (fun g p => g.removeChild name p) g1
  | none =>
    match g.addNode name (GNode.unconfigured cfg) with
    | .ok g1 => g1
    | .error _ => g

/-- An OS process config, identified by its ID. -/
structure ProcessConf where
  id : String
deriving DecidableEq, Repr

/-- One side of a configuration diff: added or modified components, services,
remotes and processes. -/
structure ConfigSet where
  components : List RConfig
  services : List RConfig
  remotes : List RemoteConf
  processes : List ProcessConf
deriving DecidableEq, Repr

/-- A configuration diff as handed to `updateResources`. -/
structure ConfigDiff where
  added : ConfigSet
  modified : ConfigSet
deriving DecidableEq, Repr

/-- Manager options. -/
structure ManagerOpts where
  debug : Bool
  fromCommand : Bool
  allowInsecureCreds : Bool
  untrustedEnv : Bool
  hasTLSConfig : Bool
deriving DecidableEq, Repr

/-- The process sub-manager, modelled as the list of live process IDs. -/
def procAdd (pm : List String) (p : ProcessConf) : List String := pm ++ [p.id]

/-- Embeds `RemoveProcessByID`: remove a process, reporting whether it was found. -/
def procRemove (pm : List String) (id : String) : List String × Bool :=
  (pm.filter (fun x => x ≠ id), pm.contains id)

/-- Accumulator of `updateResources`: graph, process manager, collected
errors (`multierr` modelled as the ordered list of combined errors). -/
structure UpdState where
  g : Graph
  pm : List String
  errs : List RErr
deriving DecidableEq, Repr

/-- Is this config a shell service (`rName.API == shell.API`)? -/
def isShellSvc (s : RConfig) : Bool := s.resourceName.api = shellAPI

/-- Added/modified-service step of `updateResources`: in an untrusted
environment a shell service is rejected with the policy error, every other
service is marked for update. -/
def updServiceStep (untrusted : Bool) (st : UpdState) (s : RConfig) : UpdState :=
  if untrusted && isShellSvc s then
    { st with errs := st.errs ++ [.shellServiceDisabled] }
  else
    { st with g := markResourceForUpdate st.g s.resourceName (.res s) }

/-- Graph effect of one service step. -/
def gServiceStep (untrusted : Bool) (g : Graph) (s : RConfig) : Graph :=
  if untrusted && isShellSvc s then g
  else markResourceForUpdate g s.resourceName (.res s)

/-- Graph effect of one component step. -/
def gCompStep (g : Graph) (c : RConfig) : Graph :=
  markResourceForUpdate g c.resourceName (.res c)

/-- Graph effect of one remote step. -/
def gRemStep (g : Graph) (r : RemoteConf) : Graph :=
  markResourceForUpdate g (fromRemoteNameToRemoteNodeName r.rname) (.rem r)

/-- The diff with the policy-gated entries removed: no shell services, no
processes. -/
def stripUntrusted (conf : ConfigDiff) : ConfigDiff :=
  ⟨⟨conf.added.components, conf.added.services.filter (fun s => !isShellSvc s),
    conf.added.remotes, []⟩,
   ⟨conf.modified.components, conf.modified.services.filter (fun s => !isShellSvc s),
    conf.modified.remotes, []⟩⟩

/-- Added/modified-component step of `updateResources`. -/
def updComponentStep (st : UpdState) (c : RConfig) : UpdState :=
  { st with g := markResourceForUpdate st.g c.resourceName (.res c) }

/-- Added/modified-remote step of `updateResources`. -/
def updRemoteStep (st : UpdState) (r : RemoteConf) : UpdState :=
  { st with g := markResourceForUpdate st.g (fromRemoteNameToRemoteNodeName r.rname) (.rem r) }

/-- Added-process phase of `updateResources`: in an untrusted environment the
loop records one policy error and breaks before touching the process manager;
otherwise each process is added. -/
def updAddedProcesses (untrusted : Bool) (ps : List ProcessConf) (st : UpdState) : UpdState :=
  match ps with
  | [] => st
  | _ :: _ =>
    if untrusted then { st with errs := st.errs ++ [.processesDisabled] }
    else { st with pm := ps.foldl procAdd st.pm }

/-- One modified-process step: stop and remove the old process, then add the
new one. -/
def updModifiedProcessStep (st : UpdState) (p : ProcessConf) : UpdState :=
  let (pm1, _) := procRemove st.pm p.id
  { st with pm := procAdd pm1 p }

/-- Modified-process phase of `updateResources`, with the same untrusted
break as the added-process phase. -/
def updModifiedProcesses (untrusted : Bool) (ps : List ProcessConf) (st : UpdState) : UpdState :=
  match ps with
  | [] => st
  | _ :: _ =>
    if untrusted then { st with errs := st.errs ++ [.processesDisabled] }
    else ps.foldl updModifiedProcessStep st

/-- Embeds `updateResources(diff)`: mark every added and modified component, service
and remote for update (policy-gating shell services and processes in an
untrusted environment), then apply the process diffs, in source order. -/
def updateResources (opts : ManagerOpts) (conf : ConfigDiff) (g : Graph)
    (pm : List String) : UpdState :=
  let st0 : UpdState := ⟨g, pm, []⟩
  let st1 := conf.added.services.foldl (updServiceStep opts.untrustedEnv) st0
  let st2 := conf.added.components.foldl updComponentStep st1
  let st3 := conf.added.remotes.foldl updRemoteStep st2
  let st4 := conf.modified.components.foldl updComponentStep st3
  let st5 := conf.modified.services.foldl (updServiceStep opts.untrustedEnv) st4
  let st6 := conf.modified.remotes.foldl updRemoteStep st5
  let st7 := updAddedProcesses opts.untrustedEnv conf.added.processes st6
  updModifiedProcesses opts.untrustedEnv conf.modified.processes st7

/-- An rpc dial option, one constructor per `rpc.With...` used by
`remoteDialOptions`. -/
inductive DialOption where
  | dialDebug
  | insecure
  | allowInsecureWithCredsDowngrade
  | tlsConfig
  | credentials (c : Credentials)
  | entityCredentials (entity : String) (c : Credentials)
  | externalAuth (addr toEntity : String)
  | externalAuthInsecure
  | webRTCOptions (signalingAddr signalingEntity : String) (creds : Option Credentials)
  | multicastDNSRemoveAuthCredentials
deriving DecidableEq, Repr

/-- Embeds `remoteDialOptions(config, opts)`: assemble the dial options from the
remote config and the manager options, in source order. -/
def remoteDialOptions (config : RemoteConf) (opts : ManagerOpts) : List DialOption :=
  let d0 : List DialOption := []
  let d1 := if opts.debug then d0 ++ [.dialDebug] else d0
  let d2 := if config.insecure then d1 ++ [.insecure] else d1
  let d3 := if opts.allowInsecureCreds then d2 ++ [.allowInsecureWithCredsDowngrade] else d2
  let d4 := if opts.hasTLSConfig then d3 ++ [.tlsConfig] else d3
  let d5 :=
    match config.auth.credentials with
    | some creds =>
      if config.auth.entity = "" then d4 ++ [.credentials creds]
      else d4 ++ [.entityCredentials config.auth.entity creds]
    | none => d4 ++ [.entityCredentials "" ⟨"", ""⟩]
  let d6 :=
    if config.auth.externalAuthAddress ≠ "" then
      d5 ++ [.externalAuth config.auth.externalAuthAddress config.auth.externalAuthToEntity]
    else d5
  let d7 := if config.auth.externalAuthInsecure then d6 ++ [.externalAuthInsecure] else d6
  if config.auth.signalingServerAddress ≠ "" then
    let d8 := d7 ++ [.webRTCOptions config.auth.signalingServerAddress
      config.auth.signalingAuthEntity config.auth.signalingCreds]
    if config.auth.managed then d8 ++ [.multicastDNSRemoveAuthCredentials] else d8
  else d7

/-- Outcome of `dialRobotClient` (external transport): either a connected
robot client or a dial error, of which the insecure-with-credentials error is
distinguished. -/
inductive DialResult where
  | ok (handle : RHandle) (data : RemoteRobotData)
  | errInsecureWithCredentials
  | errOther (msg : String)

/-- Errors returned by `processRemote`, preserving the message text of the
source. -/
inductive RemoteErr where
  | connectFailed (address : String) (inner : String)
deriving DecidableEq, Repr

/-- Embeds `processRemote(config)`: dial the remote; when dialing fails with the
insecure-with-credentials error, replace it with a guidance error naming the
CLI flag or the config field, then wrap it with the remote's address. -/
def processRemote (dialOutcome : RemoteConf → List DialOption → DialResult)
    (config : RemoteConf) (opts : ManagerOpts) :
    Except RemoteErr (RHandle × RemoteRobotData) :=
  let dialOpts := remoteDialOptions config opts
  match dialOutcome config dialOpts with
  | .ok h d => .ok (h, d)
  | .errInsecureWithCredentials =>
    if opts.fromCommand then
      .error (.connectFailed config.address
        "must use -allow-insecure-creds flag to connect to a non-TLS secured robot")
    else
      .error (.connectFailed config.address
        "must use Config.AllowInsecureCreds to connect to a non-TLS secured robot")
  | .errOther msg => .error (.connectFailed config.address msg)

/-- Embeds `Graph.FindNodesByAPI(api)`. -/
def Graph.findNodesByAPI (g : Graph) (a : API) : List RName :=
  g.names.filter (fun k => k.api = a)

/-- Modelled from the spec: `Graph.ResolveDependencies` rewrites each node's
symbolic dependencies into edges; unresolved dependencies are left alone and
do not abort the pass (spec section 4.1). -/
def resolveDeps (g : Graph) : Graph :=
  g.names.foldl
    (fun g name =>
      match g.node name with
      | none => g
      | some nd =>
        match nd.cfg with
        | .res c =>
          c.deps.foldl
            (fun g d =>
              if (g.node d).isSome then
                match g.addChild name d with
                | .ok g1 => g1
                | .error _ => g
              else g)
            g
        | _ => g)
    g

/-- Modelled from the spec: `Graph.ReverseTopologicalSort` emits a node once
all of its dependencies have been emitted, so dependencies come before
dependents (spec section 5, ordering guarantee a); ties are broken by
position in the name list. -/
def revTopoAux (edges : List (RName × RName)) : Nat → List RName → List RName
  | 0, remaining => remaining
  | fuel + 1, remaining =>
    match remaining.find? (fun n =>
        (edges.filter (fun e => e.1 = n)).all (fun e => ¬remaining.contains e.2)) with
    | some n => n :: revTopoAux edges fuel (remaining.erase n)
    | none => remaining

/-- Embeds `Graph.ReverseTopologicalSort()`. -/
def Graph.reverseTopologicalSort (g : Graph) : List RName :=
  revTopoAux g.edges g.names.length g.names

/-- Outcome of `Resource.Reconfigure`: success, a `MustRebuild` sentinel, or
a failure. -/
inductive ReconfOutcome where
  | ok
  | mustRebuild
  | failed (e : RErr)

/-- External collaborators of the complete-config pass: config validators,
the module manager, the resource constructor, reconfigure outcomes,
dependency gathering, the dialer and the robot-stub resolver. -/
structure BuildEnv where
  asRobot : RHandle → Option RemoteRobotData
  validateRemote : RemoteConf → Bool
  validateConfig : RConfig → Bool
  modProvides : RConfig → Bool
  modValidate : RConfig → Bool
  modReconfigure : RConfig → Except RErr Unit
  newResource : RConfig → Except RErr RHandle
  reconfigure : RHandle → RConfig → ReconfOutcome
  getDeps : RName → Except RErr Unit
  dial : RemoteConf → List DialOption → DialResult

/-- Embeds `processResource(conf, gNode)`: build a fresh resource for an
uninitialized node; otherwise gather dependencies and reconfigure in place
when the model is unchanged, escalating to a full rebuild on a model change
or a `MustRebuild` error.  The boolean is the newly-built flag. -/
def processResource (env : BuildEnv) (conf : RConfig) (nd : GNode) :
    Except RErr (RHandle × Bool) :=
  if nd.isUninitialized then
    match env.newResource conf with
    | .error e => .error e
    | .ok r => .ok (r, true)
  else
    match nd.unsafeResource with
    | .error e => .error e
    | .ok currentRes =>
      match env.getDeps conf.resourceName with
      | .error e => .error e
      | .ok _ =>
        let rebuild : Except RErr (RHandle × Bool) :=
          match env.newResource conf with
          | .error e => .error e
          | .ok r => .ok (r, true)
        if nd.model = some conf.model then
          if env.modProvides conf then
            match env.modReconfigure conf with
            | .error e => .error e
            | .ok _ => .ok (currentRes, false)
          else
            match env.reconfigure currentRes conf with
            | .ok => .ok (currentRes, false)
            | .failed e => .error e
            | .mustRebuild => rebuild
        else rebuild

/-- The zero `resource.Config` (what `Config()` yields on a node configured
without a native config). -/
def zeroConfig : RConfig := ⟨⟨"", "", ""⟩, "", ⟨"", ""⟩, 0, []⟩

/-- Embeds `GraphNode.Config()`. -/
def GNode.getConfig (nd : GNode) : RConfig :=
  match nd.cfg with
  | .res c => c
  | _ => zeroConfig

/-- One iteration of the second (component/service) loop of
`completeConfig`: validate, run `processResource`, mark all children for
update whenever the resource was newly built or errored, then swap the new
handle in or record the failure. -/
def completeConfigStep (env : BuildEnv) (g : Graph) (resName : RName) : Graph :=
  match g.node resName with
  | none => g
  | some nd =>
    if !nd.needsReconfigure then g
    else if !(resName.api.isComponent || resName.api.isService) then g
    else
      let conf := nd.getConfig
      if !env.validateConfig conf then
        g.setNode resName (fun nd => nd.setLastError (.other "config validation error"))
      else if env.modProvides conf && !env.modValidate conf then
        g.setNode resName (fun nd => nd.setLastError (.other "modular config validation error"))
      else
        match processResource env conf nd with
        | .ok (newRes, newlyBuilt) =>
          let g1 :=
            if newlyBuilt then
              match markChildrenForUpdate g resName with
              | .ok g1 => g1
              | .error _ => g
            else g
          g1.setNode resName (fun nd => nd.swap newRes conf.model)
        | .error e =>
          let g1 :=
            match markChildrenForUpdate g resName with
            | .ok g1 => g1
            | .error _ => g
          g1.setNode resName (fun nd => nd.setLastError e)

/-- One iteration of the remote phase of `completeConfig`: validate the
remote config, dial through `processRemote`, and on success run `addRemote`
(swap the robot client into the remote node, then reconcile its subtree). -/
def remotesPhaseStep (env : BuildEnv) (opts : ManagerOpts) (g : Graph)
    (resName : RName) : Graph :=
  match g.node resName with
  | none => g
  | some nd =>
    if !nd.needsReconfigure then g
    else
      match nd.cfg with
      | .rem rc =>
        if !env.validateRemote rc then
          g.setNode resName (fun nd => nd.setLastError (.other "remote config validation error"))
        else
          match processRemote env.dial rc opts with
          | .error _ =>
            g.setNode resName (fun nd => nd.setLastError (.other "remote connection error"))
          | .ok (h, data) =>
            let rName := fromRemoteNameToRemoteNodeName rc.rname
            let g1 := g.setNode resName (fun nd => nd.swap h builtinModel)
            (updateRemoteResourceNames g1 rName data).1
      | _ => g

/-- Embeds `completeConfig`: remotes first, then resolve dependencies, then walk the
graph in reverse topological order building or reconfiguring every node that
needs it.  The parent-notifier registration is a concurrency hook with no
graph effect and is not modelled. -/
def completeConfig (env : BuildEnv) (opts : ManagerOpts) (g : Graph) : Graph :=
  let g1 := (g.findNodesByAPI remoteAPI).foldl (remotesPhaseStep env opts) g
  let g2 := resolveDeps g1
  g2.reverseTopologicalSort.foldl (completeConfigStep env) g2

/-- The OS state seen by `cleanAppImageEnv`: environment variables (an
association list with distinct keys, keys containing no `=`) and the working
directory. -/
structure OSEnv where
  vars : List (String × String)
  cwd : String
deriving DecidableEq, Repr

/-- Embeds `os.LookupEnv`. -/
def envLookup (vars : List (String × String)) (k : String) : Option String :=
  alookup vars k

/-- Embeds `os.Setenv`: update in place, or append when absent. -/
def envSet (vars : List (String × String)) (k v : String) : List (String × String) :=
  if (envLookup vars k).isSome then
    vars.map (fun p => if p.1 = k then (k, v) else p)
  else vars ++ [(k, v)]

/-- Embeds `os.Unsetenv`. -/
def envUnset (vars : List (String × String)) (k : String) : List (String × String) :=
  vars.filter (fun p => p.1 ≠ k)

/-- Character-level prefix test (`strings.HasPrefix`), written over the
character lists so the kernel can evaluate it. -/
def listStartsWith : List Char → List Char → Bool
  | _, [] => true
  | [], _ :: _ => false
  | a :: s, b :: p => a = b && listStartsWith s p

/-- Embeds `strings.HasPrefix`. -/
def strStarts (s pat : String) : Bool := listStartsWith s.data pat.data

/-- Split a character list on a separator character. -/
def splitOnCharAux (sep : Char) : List Char → List Char → List (List Char)
  | [], acc => [acc.reverse]
  | c :: rest, acc =>
    if c = sep then acc.reverse :: splitOnCharAux sep rest []
    else splitOnCharAux sep rest (c :: acc)

/-- Embeds `strings.Split` with a one-character separator. -/
def splitOnChar (s : String) (sep : Char) : List String :=
  (splitOnCharAux sep s.data []).map String.mk

/-- Substring search over character lists. -/
def containsSubAux (pat : List Char) : List Char → Bool
  | [] => listStartsWith [] pat
  | c :: t => listStartsWith (c :: t) pat || containsSubAux pat t

/-- Embeds `strings.Contains`. -/
def strContains (s pat : String) : Bool := containsSubAux pat.data s.data

/-- Embeds `strings.Join(paths, ":")`. -/
def strJoinColon : List String → String
  | [] => ""
  | [x] => x
  | x :: rest => x ++ ":" ++ strJoinColon rest

/-- Does the key carry one of the explicit AppImage prefixes scrubbed by
phase two of `cleanAppImageEnv`? -/
def isAppImageKey (k : String) : Bool :=
  strStarts k "APPRUN" || strStarts k "APPDIR" ||
    strStarts k "APPIMAGE" || strStarts k "AIX_"

/-- Phase one of `cleanAppImageEnv`: over a snapshot of the environment,
restore every variable whose original was preserved in
`APPRUN_ORIGINAL_<name>` (empty original means unset). -/
def restoreOriginals (snapshot vars : List (String × String)) :
    List (String × String) :=
  snapshot.foldl
    (fun vars p =>
      match envLookup vars ("APPRUN_ORIGINAL_" ++ p.1) with
      | some origV => if origV ≠ "" then envSet vars p.1 origV else envUnset vars p.1
      | none => vars)
    vars

/-- Phase three of `cleanAppImageEnv`: for every variable whose value (up to
the first `=`, mirroring the `strings.Split` in the source) mentions
`/tmp/.mount_`, drop the mount paths from its colon-separated entries,
unsetting it when nothing is left. -/
def scrubMountPaths (snapshot vars : List (String × String)) :
    List (String × String) :=
  snapshot.foldl
    (fun vars p =>
      let v1 := (splitOnChar p.2 '=').headD ""
      if strContains v1 "/tmp/.mount_" then
        let newPaths := (splitOnChar v1 ':').filter
          (fun path => !strStarts path "/tmp/.mount_" && path ≠ "")
        if newPaths ≠ [] then envSet vars p.1 (strJoinColon newPaths)
        else envUnset vars p.1
      else vars)
    vars

/-- Embeds `cleanAppImageEnv`: when `APPIMAGE` is set, change directory to
`APPRUN_CWD`, restore preserved originals, unset `ARGV0`, `ORIGIN` and every
`APPRUN*`, `APPDIR*`, `APPIMAGE*`, `AIX_*` variable, and scrub
`/tmp/.mount_*` entries from path-like variables; otherwise do nothing.
`chdirOk` is the oracle for whether `os.Chdir` succeeds on a path. -/
def cleanAppImageEnv (chdirOk : String → Bool) (st : OSEnv) : Except String OSEnv :=
  match envLookup st.vars "APPIMAGE" with
  | none => .ok st
  | some _ =>
    let cwdTarget := (envLookup st.vars "APPRUN_CWD").getD ""
    if !chdirOk cwdTarget then .error "chdir failed"
    else
      let vars1 := restoreOriginals st.vars st.vars
      let vars2a := envUnset (envUnset vars1 "ARGV0") "ORIGIN"
      let vars2 := vars2a.foldl
        (fun vars p => if isAppImageKey p.1 then envUnset vars p.1 else vars) vars2a
      let vars3 := scrubMountPaths vars2 vars2
      .ok ⟨vars3, cwdTarget⟩

/-- A decoded image: color model, bounds and pixel function. -/
structure Img where
  cm : Nat
  bnds : Nat
  px : Nat → Nat → Nat

/-- The mutable state of a `LazyEncodedImage`: the constructor arguments, the
`sync.Once` flag with the stored outcome, and a ghost counter of how many
times the underlying `DecodeImage` ran. -/
structure LazyImage where
  imgBytes : List Nat
  mimeType : String
  decodeDone : Bool
  decodeErrV : Option String
  decodedImage : Option Img
  decodeCount : Nat

/-- Embeds `NewLazyEncodedImage(imgBytes, mimeType)`. -/
def newLazyEncodedImage (imgBytes : List Nat) (mimeType : String) : LazyImage :=
  ⟨imgBytes, mimeType, false, none, none, 0⟩

/-- Embeds `MIMEType()`: reads the stored mime type; the state is untouched. -/
def LazyImage.mimeTypeM (st : LazyImage) : String × LazyImage := (st.mimeType, st)

/-- Embeds `RawData()`: reads the stored bytes; the state is untouched. -/
def LazyImage.rawDataM (st : LazyImage) : List Nat × LazyImage := (st.imgBytes, st)

/-- Embeds `decode()`: run `DecodeImage` under the `sync.Once` guard, storing the
image or the recovered error, then panic (`some`) when the stored error is
set. -/
def LazyImage.runDecode (decodeFn : List Nat → String → Except String Img)
    (st : LazyImage) : LazyImage × Option String :=
  let st1 :=
    if st.decodeDone then st
    else
      match decodeFn st.imgBytes st.mimeType with
      | .ok img =>
        { st with decodeDone := true, decodedImage := some img,
                  decodeErrV := none, decodeCount := st.decodeCount + 1 }
      | .error e =>
        { st with decodeDone := true, decodedImage := none,
                  decodeErrV := some e, decodeCount := st.decodeCount + 1 }
  (st1, st1.decodeErrV)

/-- Embeds `ColorModel()`: decode, then read the decoded image; a stored decode
error surfaces as a panic (`Except.error`). -/
def LazyImage.colorModelM (decodeFn : List Nat → String → Except String Img)
    (st : LazyImage) : Except String Nat × LazyImage :=
  let (st1, p) := st.runDecode decodeFn
  match p with
  | some e => (.error e, st1)
  | none =>
    match st1.decodedImage with
    | some img => (.ok img.cm, st1)
    | none => (.error "nil dereference", st1)

/-- Embeds `Bounds()`: decode only when the decoded image is still nil, then read
its bounds. -/
def LazyImage.boundsM (decodeFn : List Nat → String → Except String Img)
    (st : LazyImage) : Except String Nat × LazyImage :=
  match st.decodedImage with
  | some img => (.ok img.bnds, st)
  | none =>
    let (st1, p) := st.runDecode decodeFn
    match p with
    | some e => (.error e, st1)
    | none =>
      match st1.decodedImage with
      | some img => (.ok img.bnds, st1)
      | none => (.error "nil dereference", st1)

/-- Embeds `At(x, y)`: decode, then read the pixel. -/
def LazyImage.atM (decodeFn : List Nat → String → Except String Img)
    (x y : Nat) (st : LazyImage) : Except String Nat × LazyImage :=
  let (st1, p) := st.runDecode decodeFn
  match p with
  | some e => (.error e, st1)
  | none =>
    match st1.decodedImage with
    | some img => (.ok (img.px x y), st1)
    | none => (.error "nil dereference", st1)

/-- One call against a lazy image. -/
inductive LazyCall where
  | colorModel
  | bounds
  | atPixel (x y : Nat)
deriving DecidableEq, Repr

/-- Apply one call, keeping only the state. -/
def lazyApply (decodeFn : List Nat → String → Except String Img)
    (st : LazyImage) (c : LazyCall) : LazyImage :=
  match c with
  | .colorModel => (st.colorModelM decodeFn).2
  | .bounds => (st.boundsM decodeFn).2
  | .atPixel x y => (LazyImage.atM decodeFn x y st).2

/-- Run a sequence of calls against a lazy image. -/
def lazyRun (decodeFn : List Nat → String → Except String Img)
    (st : LazyImage) (cs : List LazyCall) : LazyImage :=
  cs.foldl (lazyApply decodeFn) st

/-- Reachability invariant of a lazy image: the constructor arguments are
retained, and the decode either has not run (zero decoder invocations, no
stored outcome) or has run exactly once with its outcome stored. -/
def LazyInv (decodeFn : List Nat → String → Except String Img)
    (bytes : List Nat) (mime : String) (st : LazyImage) : Prop :=
  st.imgBytes = bytes ∧ st.mimeType = mime ∧
    ((st.decodeDone = false ∧ st.decodeCount = 0 ∧ st.decodedImage = none ∧
        st.decodeErrV = none) ∨
     (st.decodeDone = true ∧ st.decodeCount = 1 ∧
       (match decodeFn bytes mime with
        | .ok img => st.decodedImage = some img ∧ st.decodeErrV = none
        | .error e => st.decodedImage = none ∧ st.decodeErrV = some e)))

/-! Concrete instances used to exercise the claims. -/

/-- The arm component API. -/
def armAPI : API := ⟨"rdk", "component", "arm"⟩

/-- Remote node name `r1`. -/
def r1Name : RName := ⟨remoteAPI, [], "r1"⟩

/-- Remote node name `r2`. -/
def r2Name : RName := ⟨remoteAPI, [], "r2"⟩

/-- Unprefixed remote resource name `arm:a`. -/
def aBase : RName := ⟨armAPI, [], "a"⟩

/-- Unprefixed remote resource name `arm:b`. -/
def bBase : RName := ⟨armAPI, [], "b"⟩

/-- Remote robot behind `r1`: exposes `arm:a`. -/
def rr1 : RemoteRobotData :=
  ⟨[aBase],
   fun m => if m = aBase then .ok (.client 10) else .error .missingClientRegistration,
   []⟩

/-- Remote robot behind `r2`: exposes `arm:b`. -/
def rr2 : RemoteRobotData :=
  ⟨[bBase],
   fun m => if m = bBase then .ok (.client 20) else .error .missingClientRegistration,
   []⟩

/-- Environment resolving the two robot stubs. -/
def envTwoRemotes : RobotEnv :=
  ⟨fun h =>
    match h with
    | .robotStub 1 => some rr1
    | .robotStub 2 => some rr2
    | _ => none⟩

/-- A manager graph holding the two connected remote nodes, both subtrees
not yet pulled. -/
def gTwoRemotes : Graph :=
  ⟨[(r1Name, GNode.configured .empty (.robotStub 1) builtinModel),
    (r2Name, GNode.configured .empty (.robotStub 2) builtinModel)], []⟩

/-- The name `r2:arm:b` that the second pull would graft. -/
def bUnderR2 : RName := ⟨armAPI, ["r2"], "b"⟩

/-- Native arm resource name `arm:a` as held locally. -/
def aLocal : RName := ⟨armAPI, [], "a"⟩

/-- Remote robot whose RPC APIs carry a conflicting arm service descriptor. -/
def rrConflict : RemoteRobotData :=
  ⟨[], fun _ => .error .missingClientRegistration,
   [(armAPI, "remote.service.arm.v1.ArmService")]⟩

/-- Environment resolving the conflicting remote. -/
def envConflict : RobotEnv :=
  ⟨fun h =>
    match h with
    | .robotStub 1 => some rrConflict
    | _ => none⟩

/-- Native registry: the arm API registers the local arm service descriptor. -/
def regConflict : RegistryEnv :=
  ⟨fun a => if a = armAPI then some ⟨"viam.component.arm.v1.ArmService"⟩ else none⟩

/-- A native arm config. -/
def armConf : RConfig := ⟨armAPI, "a", builtinModel, 0, []⟩

/-- Graph where the remote node is iterated before the native arm resource. -/
def gRemoteFirst : Graph :=
  ⟨[(r1Name, GNode.configured .empty (.robotStub 1) builtinModel),
    (aLocal, GNode.configured (.res armConf) (.localRes 5) builtinModel)], []⟩

/-- The same graph with the native arm resource iterated first. -/
def gNativeFirst : Graph :=
  ⟨[(aLocal, GNode.configured (.res armConf) (.localRes 5) builtinModel),
    (r1Name, GNode.configured .empty (.robotStub 1) builtinModel)], []⟩

/-- Remote resource name `r1:arm:a`. -/
def aUnderR1 : RName := ⟨armAPI, ["r1"], "a"⟩

/-- Local dependent of the remote resource `r1:arm:a`. -/
def locName : RName := ⟨armAPI, [], "loc"⟩

/-- Graph for remote loss: remote node `r1`, grafted `r1:arm:a`, and a local
resource depending on it. -/
def gRemoteLoss : Graph :=
  ⟨[(r1Name, GNode.configured .empty (.robotStub 1) builtinModel),
    (aUnderR1, GNode.configured .empty (.client 10) unknownModel),
    (locName, GNode.configured (.res ⟨armAPI, "loc", builtinModel, 0, [aUnderR1]⟩)
      (.localRes 7) builtinModel)],
   [(aUnderR1, r1Name), (locName, aUnderR1)]⟩

/-- Remote robot that has lost all of its resources. -/
def rrEmpty : RemoteRobotData :=
  ⟨[], fun _ => .error .missingClientRegistration, []⟩

/-- Graph exhibiting a partial-match clash: `r1:arm:a` and `r2:arm:a`. -/
def gClash : Graph :=
  ⟨[(⟨armAPI, ["r1"], "a"⟩, GNode.configured .empty (.client 10) unknownModel),
    (⟨armAPI, ["r2"], "a"⟩, GNode.configured .empty (.client 20) unknownModel)], []⟩

/-- A shell service config. -/
def shellConf : RConfig := ⟨shellAPI, "shell1", builtinModel, 0, []⟩

/-- A motion (non-shell) service config. -/
def motionConf : RConfig := ⟨⟨"rdk", "service", "motion"⟩, "m1", builtinModel, 0, []⟩

/-- A diff adding a shell service, a motion service, an arm component and a
process. -/
def diffUntrusted : ConfigDiff :=
  ⟨⟨[armConf], [shellConf, motionConf], [], [⟨"proc1"⟩]⟩, ⟨[], [], [], []⟩⟩

/-- Untrusted manager options. -/
def optsUntrusted : ManagerOpts := ⟨false, false, false, true, false⟩

/-- Manager options with every flag cleared. -/
def optsPlain : ManagerOpts := ⟨false, false, false, false, false⟩

/-- A remote config without credentials. -/
def remoteConfNoCreds : RemoteConf :=
  ⟨"r1", "addr1", false, ⟨none, "", "", "", false, "", "", none, false⟩⟩

/-- A dialer that always fails with the insecure-with-credentials error. -/
def dialInsecure : RemoteConf → List DialOption → DialResult :=
  fun _ _ => .errInsecureWithCredentials

/-- Graph for the newly-built marking scenario: component `c` with dependent
`d`. -/
def cName : RName := ⟨armAPI, [], "c"⟩

/-- The dependent resource name. -/
def dName : RName := ⟨armAPI, [], "d"⟩

/-- Config of component `c`. -/
def cConf : RConfig := ⟨armAPI, "c", builtinModel, 0, []⟩

/-- Graph with `d` depending on `c`, `c` uninitialized and pending. -/
def gBuildChain : Graph :=
  ⟨[(cName, GNode.unconfigured (.res cConf)),
    (dName, GNode.configured (.res ⟨armAPI, "d", builtinModel, 0, [cName]⟩)
      (.localRes 3) builtinModel)],
   [(dName, cName)]⟩

/-- Build environment whose constructor always succeeds. -/
def envBuildOk : BuildEnv :=
  ⟨fun _ => none, fun _ => true, fun _ => true, fun _ => false, fun _ => true,
   fun _ => .ok (), fun c => .ok (.localRes (c.attrs + 100)), fun _ _ => .ok,
   fun _ => .ok (), fun _ _ => .errOther "no dial"⟩

/-- The AppImage environment of the scrub scenario. -/
def envAppImage : OSEnv :=
  ⟨[("APPIMAGE", "/path/app.AppImage"),
    ("APPRUN_ORIGINAL_PATH", "/usr/bin"),
    ("PATH", "/tmp/.mount_x/bin:/usr/bin"),
    ("APPRUN_CWD", "/home/user"),
    ("APPDIR", "/tmp/.mount_x"),
    ("AIX_TARGET", "z"),
    ("ARGV0", "app"),
    ("ORIGIN", "/tmp/.mount_x"),
    ("HOME", "/home/user")], "/tmp/.mount_x"⟩

/-- A non-AppImage environment. -/
def envNoAppImage : OSEnv := ⟨[("HOME", "/home/user"), ("PATH", "/usr/bin")], "/w"⟩

/-- A decoder that always fails. -/
def decodeFnFail : List Nat → String → Except String Img :=
  fun _ _ => .error "image: unknown format"

/-- The node under `d` exists and has its needs-update bit set. -/
def updSet (g : Graph) (d : RName) : Prop :=
  ∃ nd, g.node d = some nd ∧ nd.needsUpd = true

/-- The node under `d` exists and is closed. -/
def closedAt (g : Graph) (d : RName) : Prop :=
  ∃ nd, g.node d = some nd ∧ nd.closed = true

/-! ### Core lemmas about the association-list and graph model -/

theorem alookup_append {α β : Type} [DecidableEq α] (l m : List (α × β)) (x : α) :
    alookup (l ++ m) x = (alookup l x).or (alookup m x) := by
  induction l with
  | nil => simp [alookup]
  | cons p t ih =>
    by_cases h : p.1 = x <;> simp [alookup, h, ih]

theorem alookup_isSome_iff {α β : Type} [DecidableEq α] (l : List (α × β)) (x : α) :
    (alookup l x).isSome ↔ x ∈ l.map Prod.fst := by
  induction l with
  | nil => simp [alookup]
  | cons p t ih =>
    by_cases h : p.1 = x
    · subst h
      simp [alookup]
    · have hx : ¬x = p.1 := fun hh => h hh.symm
      simp [alookup, h, ih, hx]

theorem node_isSome_iff (g : Graph) (x : RName) :
    (g.node x).isSome ↔ x ∈ g.names := by
  simpa [Graph.node, Graph.names] using alookup_isSome_iff g.nodes x

theorem alookup_map_update {β : Type} (l : List (RName × β)) (y x : RName)
    (f : β → β) :
    alookup (l.map (fun p => if p.1 = y then (p.1, f p.2) else p)) x
      = if x = y then (alookup l x).map f else alookup l x := by
  induction l with
  | nil => simp [alookup]
  | cons p t ih =>
    by_cases hy : p.1 = y
    · subst hy
      by_cases hx : p.1 = x
      · subst hx
        simp [alookup]
      · have hxy : ¬x = p.1 := fun hh => hx hh.symm
        simp [alookup, hx, hxy, ih]
    · by_cases hx : p.1 = x
      · subst hx
        have hxy : ¬p.1 = y := hy
        simp [alookup, hxy]
      · simp [alookup, hy, hx, ih]

theorem node_setNode (g : Graph) (y : RName) (f : GNode → GNode) (x : RName) :
    (g.setNode y f).node x = if x = y then (g.node x).map f else g.node x := by
  simpa [Graph.node, Graph.setNode] using alookup_map_update g.nodes y x f

theorem setNode_names (g : Graph) (y : RName) (f : GNode → GNode) :
    (g.setNode y f).names = g.names := by
  unfold Graph.names Graph.setNode
  simp only [List.map_map]
  apply List.map_congr_left
  intro p _
  by_cases h : p.1 = y <;> simp [h]

theorem setNode_edges (g : Graph) (y : RName) (f : GNode → GNode) :
    (g.setNode y f).edges = g.edges := rfl

theorem addChild_ok_nodes {g g' : Graph} {c p : RName}
    (h : g.addChild c p = .ok g') : g'.nodes = g.nodes := by
  unfold Graph.addChild at h
  split at h
  · exact absurd h (by simp)
  · split at h
    · exact absurd h (by simp)
    · split at h <;> (injection h with h; subst h; rfl)

theorem addNode_ok {g g' : Graph} {x : RName} {nd : GNode}
    (h : g.addNode x nd = .ok g') :
    g'.nodes = g.nodes ++ [(x, nd)] ∧ g'.edges = g.edges ∧ g.node x = none := by
  unfold Graph.addNode at h
  split at h
  · exact absurd h (by simp)
  · injection h with h
    subst h
    refine ⟨rfl, rfl, ?_⟩
    have hn : ¬(g.node x).isSome := by assumption
    cases hh : g.node x
    · rfl
    · exact absurd (by simp [hh]) hn

theorem node_addNode_preserved {g g' : Graph} {x y : RName} {nd : GNode}
    (h : g.addNode y nd = .ok g') (hx : (g.node x).isSome) :
    g'.node x = g.node x := by
  obtain ⟨hnodes, -, -⟩ := addNode_ok h
  unfold Graph.node at hx ⊢
  rw [hnodes, alookup_append]
  cases hl : alookup g.nodes x
  · rw [hl] at hx; simp at hx
  · simp [Option.or]

theorem updSet_setNode {g : Graph} {y : RName} {f : GNode → GNode} {d : RName}
    (hf : ∀ nd, nd.needsUpd = true → (f nd).needsUpd = true) :
    updSet g d → updSet (g.setNode y f) d := by
  rintro ⟨nd, hnd, hu⟩
  by_cases h : d = y
  · exact ⟨f nd, by rw [node_setNode, if_pos h, hnd]; rfl, hf nd hu⟩
  · exact ⟨nd, by rw [node_setNode, if_neg h]; exact hnd, hu⟩

theorem closedAt_setNode {g : Graph} {y : RName} {f : GNode → GNode} {d : RName}
    (hf : ∀ nd, nd.closed = true → (f nd).closed = true) :
    closedAt g d → closedAt (g.setNode y f) d := by
  rintro ⟨nd, hnd, hu⟩
  by_cases h : d = y
  · exact ⟨f nd, by rw [node_setNode, if_pos h, hnd]; rfl, hf nd hu⟩
  · exact ⟨nd, by rw [node_setNode, if_neg h]; exact hnd, hu⟩

theorem setNode_isSome {g : Graph} {y : RName} {f : GNode → GNode} {d : RName}
    (h : (g.node d).isSome) : ((g.setNode y f).node d).isSome := by
  rw [node_setNode]
  by_cases hd : d = y
  · rw [if_pos hd]; simpa using h
  · rw [if_neg hd]; exact h

theorem markStep_names (r : RName) (g : Graph) (n : RName) :
    (markStep r g n).names = g.names ∧ (markStep r g n).edges = g.edges := by
  unfold markStep
  split
  · exact ⟨rfl, rfl⟩
  · split
    · exact ⟨rfl, rfl⟩
    · exact ⟨setNode_names _ _ _, rfl⟩

theorem markFold_names (r : RName) (L : List RName) (g : Graph) :
    (L.foldl (markStep r) g).names = g.names ∧
      (L.foldl (markStep r) g).edges = g.edges := by
  induction L generalizing g with
  | nil => exact ⟨rfl, rfl⟩
  | cons a t ih =>
    have h := markStep_names r g a
    have h2 := ih (markStep r g a)
    exact ⟨h2.1.trans h.1, h2.2.trans h.2⟩

theorem markStep_updSet {r : RName} {g : Graph} {n d : RName} :
    updSet g d → updSet (markStep r g n) d := by
  intro h
  unfold markStep
  split
  · exact h
  · split
    · exact h
    · exact updSet_setNode (fun nd _ => rfl) h

theorem markStep_closedAt {r : RName} {g : Graph} {n d : RName} :
    closedAt g d → closedAt (markStep r g n) d := by
  intro h
  unfold markStep
  split
  · exact h
  · split
    · exact h
    · exact closedAt_setNode (by intro nd hc; exact hc) h

theorem markStep_isSome {r : RName} {g : Graph} {n d : RName}
    (h : (g.node d).isSome) : ((markStep r g n).node d).isSome := by
  unfold markStep
  split
  · exact h
  · split
    · exact h
    · exact setNode_isSome h

theorem markFold_updSet {r : RName} {L : List RName} {g : Graph} {d : RName}
    (h : updSet g d) : updSet (L.foldl (markStep r) g) d := by
  induction L generalizing g with
  | nil => exact h
  | cons a t ih => exact ih (markStep_updSet h)

theorem markFold_closedAt {r : RName} {L : List RName} {g : Graph} {d : RName}
    (h : closedAt g d) : closedAt (L.foldl (markStep r) g) d := by
  induction L generalizing g with
  | nil => exact h
  | cons a t ih => exact ih (markStep_closedAt h)

theorem markFold_isSome {r : RName} {L : List RName} {g : Graph} {d : RName}
    (h : (g.node d).isSome) : ((L.foldl (markStep r) g).node d).isSome := by
  induction L generalizing g with
  | nil => exact h
  | cons a t ih => exact ih (markStep_isSome h)

theorem markFold_marks {r : RName} {L : List RName} {g : Graph} {d : RName}
    (hmem : d ∈ L) (hne : d ≠ r) (hloc : d.containsRemoteNames = false)
    (hs : (g.node d).isSome) : updSet (L.foldl (markStep r) g) d := by
  induction L generalizing g with
  | nil => exact absurd hmem (List.not_mem_nil d)
  | cons a t ih =>
    rcases List.mem_cons.1 hmem with rfl | hmem2
    · rw [List.foldl_cons]
      apply markFold_updSet
      obtain ⟨nd, hnd⟩ := Option.isSome_iff_exists.1 hs
      have hcond : ¬(d = r ∨ d.containsRemoteNames = true) := by
        rintro (h1 | h2)
        · exact hne h1
        · rw [hloc] at h2; exact Bool.false_ne_true h2
      have hstep : markStep r g d = g.setNode d GNode.setNeedsUpdate := by
        unfold markStep
        rw [if_neg hcond, hnd]
      rw [hstep]
      exact ⟨nd.setNeedsUpdate, by rw [node_setNode, if_pos rfl, hnd]; rfl, rfl⟩
    · exact ih hmem2 (markStep_isSome hs)

theorem subGraphFrom_congr {g g' : Graph} (hn : g.names = g'.names)
    (he : g.edges = g'.edges) (r : RName) :
    g.subGraphFrom r = g'.subGraphFrom r := by
  unfold Graph.subGraphFrom
  by_cases h : (g.node r).isSome
  · have h' : (g'.node r).isSome := by
      rw [node_isSome_iff] at h ⊢; rw [← hn]; exact h
    rw [if_pos h, if_pos h', hn, he]
  · have h' : ¬(g'.node r).isSome := by
      rw [node_isSome_iff] at h ⊢; rw [← hn]; exact h
    rw [if_neg h, if_neg h']

theorem subGraphFrom_mem_names {g : Graph} {r d : RName} {L : List RName}
    (h : g.subGraphFrom r = .ok L) (hd : d ∈ L) : d ∈ g.names := by
  unfold Graph.subGraphFrom at h
  split at h
  · injection h with h
    subst h
    exact (List.mem_filter.1 hd).1
  · exact absurd h (by simp)

theorem markChildren_ok {g : Graph} {r : RName} (h : (g.node r).isSome) :
    ∃ L, g.subGraphFrom r = .ok L ∧
      markChildrenForUpdate g r = .ok (L.foldl (markStep r) g) := by
  refine ⟨g.names.filter (fun x => reachesAux g.edges (g.edges.length + 1) x r), ?_, ?_⟩
  · unfold Graph.subGraphFrom
    rw [if_pos h]
  · unfold markChildrenForUpdate Graph.subGraphFrom
    rw [if_pos h]

theorem markChildren_ok_names {g g' : Graph} {r : RName}
    (h : markChildrenForUpdate g r = .ok g') :
    g'.names = g.names ∧ g'.edges = g.edges := by
  unfold markChildrenForUpdate at h
  split at h
  · exact absurd h (by simp)
  · injection h with h
    subst h
    exact markFold_names _ _ _

theorem removeStep_eq_error {st : Graph × Bool} {m : RName} {e : RErr}
    (h : markChildrenForUpdate st.1 m = .error e) : removeRemoteStep st m = st := by
  simp [removeRemoteStep, h]

theorem removeStep_eq_none {st : Graph × Bool} {m : RName} {g1 : Graph}
    (h : markChildrenForUpdate st.1 m = .ok g1) (hn : g1.node m = none) :
    removeRemoteStep st m = (g1, st.2) := by
  simp [removeRemoteStep, h, hn]

theorem removeStep_eq_some {st : Graph × Bool} {m : RName} {g1 : Graph} {nd : GNode}
    (h : markChildrenForUpdate st.1 m = .ok g1) (hn : g1.node m = some nd) :
    removeRemoteStep st m = (g1.setNode m GNode.closeNode, true) := by
  simp [removeRemoteStep, h, hn]

theorem markChildren_ok_updSet {g g' : Graph} {r d : RName}
    (h : markChildrenForUpdate g r = .ok g') (hu : updSet g d) : updSet g' d := by
  unfold markChildrenForUpdate at h
  split at h
  · exact absurd h (by simp)
  · injection h with h
    subst h
    exact markFold_updSet hu

theorem markChildren_ok_closedAt {g g' : Graph} {r d : RName}
    (h : markChildrenForUpdate g r = .ok g') (hu : closedAt g d) : closedAt g' d := by
  unfold markChildrenForUpdate at h
  split at h
  · exact absurd h (by simp)
  · injection h with h
    subst h
    exact markFold_closedAt hu

theorem removeStep_names (st : Graph × Bool) (m : RName) :
    (removeRemoteStep st m).1.names = st.1.names ∧
      (removeRemoteStep st m).1.edges = st.1.edges := by
  cases hmc : markChildrenForUpdate st.1 m with
  | error e => rw [removeStep_eq_error hmc]; exact ⟨rfl, rfl⟩
  | ok g1 =>
    have h1 := markChildren_ok_names hmc
    cases hn : g1.node m with
    | none => rw [removeStep_eq_none hmc hn]; exact ⟨h1.1, h1.2⟩
    | some nd =>
      rw [removeStep_eq_some hmc hn]
      exact ⟨(setNode_names _ _ _).trans h1.1, h1.2⟩

theorem removeStep_updSet {st : Graph × Bool} {m d : RName}
    (h : updSet st.1 d) : updSet (removeRemoteStep st m).1 d := by
  cases hmc : markChildrenForUpdate st.1 m with
  | error e => rw [removeStep_eq_error hmc]; exact h
  | ok g1 =>
    have hg1 := markChildren_ok_updSet hmc h
    cases hn : g1.node m with
    | none => rw [removeStep_eq_none hmc hn]; exact hg1
    | some nd =>
      rw [removeStep_eq_some hmc hn]
      exact updSet_setNode (fun nd hu => hu) hg1

theorem removeStep_closedAt {st : Graph × Bool} {m d : RName}
    (h : closedAt st.1 d) : closedAt (removeRemoteStep st m).1 d := by
  cases hmc : markChildrenForUpdate st.1 m with
  | error e => rw [removeStep_eq_error hmc]; exact h
  | ok g1 =>
    have hg1 := markChildren_ok_closedAt hmc h
    cases hn : g1.node m with
    | none => rw [removeStep_eq_none hmc hn]; exact hg1
    | some nd =>
      rw [removeStep_eq_some hmc hn]
      exact closedAt_setNode (fun nd _ => rfl) hg1

theorem removeStep_isSome {st : Graph × Bool} {m d : RName}
    (h : (st.1.node d).isSome) : ((removeRemoteStep st m).1.node d).isSome := by
  have hnames := (removeStep_names st m).1
  rw [node_isSome_iff] at h ⊢
  rw [hnames]
  exact h

theorem removeStep_changed {st : Graph × Bool} {m : RName}
    (h : st.2 = true) : (removeRemoteStep st m).2 = true := by
  cases hmc : markChildrenForUpdate st.1 m with
  | error e => rw [removeStep_eq_error hmc]; exact h
  | ok g1 =>
    cases hn : g1.node m with
    | none => rw [removeStep_eq_none hmc hn]; exact h
    | some nd => rw [removeStep_eq_some hmc hn]

theorem removeFold_names (l : List RName) (st : Graph × Bool) :
    (l.foldl removeRemoteStep st).1.names = st.1.names ∧
      (l.foldl removeRemoteStep st).1.edges = st.1.edges := by
  induction l generalizing st with
  | nil => exact ⟨rfl, rfl⟩
  | cons a t ih =>
    have h := removeStep_names st a
    have h2 := ih (removeRemoteStep st a)
    exact ⟨h2.1.trans h.1, h2.2.trans h.2⟩

theorem removeFold_updSet {l : List RName} {st : Graph × Bool} {d : RName}
    (h : updSet st.1 d) : updSet (l.foldl removeRemoteStep st).1 d := by
  induction l generalizing st with
  | nil => exact h
  | cons a t ih => exact ih (removeStep_updSet h)

theorem removeFold_closedAt {l : List RName} {st : Graph × Bool} {d : RName}
    (h : closedAt st.1 d) : closedAt (l.foldl removeRemoteStep st).1 d := by
  induction l generalizing st with
  | nil => exact h
  | cons a t ih => exact ih (removeStep_closedAt h)

theorem removeFold_isSome {l : List RName} {st : Graph × Bool} {d : RName}
    (h : (st.1.node d).isSome) : ((l.foldl removeRemoteStep st).1.node d).isSome := by
  induction l generalizing st with
  | nil => exact h
  | cons a t ih => exact ih (removeStep_isSome h)

theorem removeFold_changed {l : List RName} {st : Graph × Bool}
    (h : st.2 = true) : (l.foldl removeRemoteStep st).2 = true := by
  induction l generalizing st with
  | nil => exact h
  | cons a t ih => exact ih (removeStep_changed h)

theorem removeStep_on (st : Graph × Bool) (n : RName)
    (hs : (st.1.node n).isSome) :
    (removeRemoteStep st n).2 = true ∧ closedAt (removeRemoteStep st n).1 n ∧
      ∀ d L, st.1.subGraphFrom n = .ok L → d ∈ L → d ≠ n →
        d.containsRemoteNames = false → updSet (removeRemoteStep st n).1 d := by
  obtain ⟨L0, hsub, hmc⟩ := markChildren_ok hs
  have hg1s : ((L0.foldl (markStep n) st.1).node n).isSome := markFold_isSome hs
  obtain ⟨nd1, hnd1⟩ := Option.isSome_iff_exists.1 hg1s
  have hstep := removeStep_eq_some hmc hnd1
  refine ⟨by rw [hstep], ?_, ?_⟩
  · rw [hstep]
    exact ⟨nd1.closeNode, by rw [node_setNode, if_pos rfl, hnd1]; rfl, rfl⟩
  · intro d L hL hd hdn hdl
    rw [hsub] at hL
    injection hL with hL
    subst hL
    have hds : (st.1.node d).isSome := by
      rw [node_isSome_iff]
      exact subGraphFrom_mem_names hsub hd
    have hmarked : updSet (L0.foldl (markStep n) st.1) d :=
      markFold_marks hd hdn hdl hds
    rw [hstep]
    exact updSet_setNode (fun nd hu => hu) hmarked

theorem node_congr {g g' : Graph} (h : g.nodes = g'.nodes) (d : RName) :
    g.node d = g'.node d := by
  unfold Graph.node
  rw [h]

theorem urInstall_isSome {g : Graph} {resName : RName} {res : RHandle} {d : RName}
    (h : (g.node d).isSome) : ((urInstall g resName res).node d).isSome := by
  cases hn : g.node resName with
  | some nd =>
    have he : urInstall g resName res = g.setNode resName (fun nd => nd.swap res unknownModel) := by
      simp [urInstall, hn]
    rw [he]
    exact setNode_isSome h
  | none =>
    cases ha : g.addNode resName (GNode.configured .empty res unknownModel) with
    | ok g1 =>
      have he : urInstall g resName res = g1 := by simp [urInstall, hn, ha]
      rw [he, node_addNode_preserved ha h]
      exact h
    | error e =>
      have he : urInstall g resName res = g := by simp [urInstall, hn, ha]
      rw [he]
      exact h

theorem urAttach_nodes (g : Graph) (c p : RName) : (urAttach g c p).1.nodes = g.nodes := by
  cases ha : g.addChild c p with
  | ok g2 =>
    have he : urAttach g c p = (g2, true) := by simp [urAttach, ha]
    rw [he]
    exact addChild_ok_nodes ha
  | error e =>
    have he : urAttach g c p = (g, false) := by simp [urAttach, ha]
    rw [he]

theorem urStep_cases (remoteName : RName) (rr : RemoteRobotData) (old : List RName)
    (st : URState) (m : RName) :
    ((updateRemoteStep remoteName rr old st m).g = st.g ∨
      ∃ res, (updateRemoteStep remoteName rr old st m).g =
        (urAttach (urInstall st.g (m.prependRemote remoteName.name) res)
          (m.prependRemote remoteName.name) remoteName).1) ∧
    ((updateRemoteStep remoteName rr old st m).active = st.active ∨
      (updateRemoteStep remoteName rr old st m).active =
        m.prependRemote remoteName.name :: st.active) ∧
    (st.changed = true → (updateRemoteStep remoteName rr old st m).changed = true) := by
  cases hrb : rr.resourceByName m with
  | error e =>
    have he : updateRemoteStep remoteName rr old st m = st := by
      simp [updateRemoteStep, hrb]
    rw [he]
    exact ⟨Or.inl rfl, Or.inl rfl, fun h => h⟩
  | ok res =>
    by_cases hac : m.prependRemote remoteName.name ∈ old
    · by_cases hcur : (match st.g.node (m.prependRemote remoteName.name) with
          | some nd => !nd.isUninitialized
          | none => false) = true
      · have he : updateRemoteStep remoteName rr old st m =
            { st with active := m.prependRemote remoteName.name :: st.active } := by
          simp [updateRemoteStep, hrb, hac, hcur]
        rw [he]
        exact ⟨Or.inl rfl, Or.inr rfl, fun h => h⟩
      · have he : (updateRemoteStep remoteName rr old st m) =
            { g := (urAttach (urInstall st.g (m.prependRemote remoteName.name) res)
                (m.prependRemote remoteName.name) remoteName).1,
              changed := st.changed || (urAttach (urInstall st.g (m.prependRemote remoteName.name) res)
                (m.prependRemote remoteName.name) remoteName).2,
              active := m.prependRemote remoteName.name :: st.active } := by
          simp [updateRemoteStep, hrb, hac, hcur]
        rw [he]
        refine ⟨Or.inr ⟨res, rfl⟩, Or.inr rfl, fun h => ?_⟩
        simp [h]
    · have he : (updateRemoteStep remoteName rr old st m) =
          { g := (urAttach (urInstall st.g (m.prependRemote remoteName.name) res)
              (m.prependRemote remoteName.name) remoteName).1,
            changed := st.changed || (urAttach (urInstall st.g (m.prependRemote remoteName.name) res)
              (m.prependRemote remoteName.name) remoteName).2,
            active := st.active } := by
        simp [updateRemoteStep, hrb, hac]
      rw [he]
      refine ⟨Or.inr ⟨res, rfl⟩, Or.inl rfl, fun h => ?_⟩
      simp [h]

theorem urStep_isSome {remoteName : RName} {rr : RemoteRobotData} {old : List RName}
    {st : URState} {m d : RName} (h : ((st.g).node d).isSome) :
    (((updateRemoteStep remoteName rr old st m).g).node d).isSome := by
  rcases (urStep_cases remoteName rr old st m).1 with hg | ⟨res, hg⟩
  · rw [hg]; exact h
  · rw [hg, node_congr (urAttach_nodes _ _ _) d]
    exact urInstall_isSome h

theorem urFold_isSome {remoteName : RName} {rr : RemoteRobotData} {old : List RName}
    {l : List RName} {st : URState} {d : RName} (h : ((st.g).node d).isSome) :
    (((l.foldl (updateRemoteStep remoteName rr old) st).g).node d).isSome := by
  induction l generalizing st with
  | nil => exact h
  | cons a t ih => exact ih (urStep_isSome h)

theorem urFold_notActive {remoteName : RName} {rr : RemoteRobotData} {old : List RName}
    {l : List RName} {st : URState} {n : RName}
    (hl : ∀ m ∈ l, m.prependRemote remoteName.name ≠ n)
    (h : n ∉ st.active) :
    n ∉ (l.foldl (updateRemoteStep remoteName rr old) st).active := by
  induction l generalizing st with
  | nil => exact h
  | cons a t ih =>
    refine ih (fun m hm => hl m (List.mem_cons_of_mem a hm)) ?_
    rcases (urStep_cases remoteName rr old st a).2.1 with ha | ha
    · rw [ha]; exact h
    · rw [ha]
      intro hmem
      rcases List.mem_cons.1 hmem with heq | hmem2
      · exact hl a (List.mem_cons_self a t) heq.symm
      · exact h hmem2

/-- C3: in `updateRemoteResourceNames`, for every name in the old snapshot of
remote-origin nodes under the remote that is absent from the remote's current
`ResourceNames`, `SetNeedsUpdate` is propagated to every local
(non-remote-prefixed) name in that node's subgraph other than the node
itself, the node is then closed, and the function returns true. -/
theorem updateRemoteResourceNames_removal (g : Graph) (remoteName : RName)
    (rr : RemoteRobotData) (n : RName)
    (hold : n ∈ remoteResourceNames g remoteName)
    (hnode : (g.node n).isSome)
    (hnew : ∀ m ∈ rr.resourceNames, m.prependRemote remoteName.name ≠ n) :
    (updateRemoteResourceNames g remoteName rr).2 = true ∧
      closedAt (updateRemoteResourceNames g remoteName rr).1 n ∧
      ∀ d L, (updateRemoteResourceNames g remoteName rr).1.subGraphFrom n = .ok L →
        d ∈ L → d ≠ n → d.containsRemoteNames = false →
        updSet (updateRemoteResourceNames g remoteName rr).1 d := by
  unfold updateRemoteResourceNames
  simp only
  set old := remoteResourceNames g remoteName with hOldDef
  set afterNew := rr.resourceNames.foldl (updateRemoteStep remoteName rr old) ⟨g, false, []⟩
    with hAfter
  have hnact : n ∉ afterNew.active := by
    rw [hAfter]
    exact urFold_notActive hnew (by simp)
  have hninact : n ∈ old.filter (fun x => !afterNew.active.contains x) := by
    refine List.mem_filter.2 ⟨hold, ?_⟩
    simp only [Bool.not_eq_true', ← Bool.not_eq_true]
    intro hc
    exact hnact (List.mem_of_elem_eq_true hc)
  obtain ⟨l1, l2, hsplit⟩ := List.append_of_mem hninact
  rw [hsplit, List.foldl_append, List.foldl_cons]
  set st1 : Graph × Bool := l1.foldl removeRemoteStep (afterNew.g, afterNew.changed) with hst1
  have hs0 : ((afterNew.g).node n).isSome := by
    rw [hAfter]
    exact urFold_isSome hnode
  have hs1 : (st1.1.node n).isSome := by
    rw [hst1]
    exact removeFold_isSome hs0
  have hOn := removeStep_on st1 n hs1
  refine ⟨removeFold_changed hOn.1, removeFold_closedAt hOn.2.1, ?_⟩
  intro d L hL hd hdn hdl
  have hnames2 := removeFold_names l2 (removeRemoteStep st1 n)
  have hnames1 := removeStep_names st1 n
  have hLsub : st1.1.subGraphFrom n = .ok L := by
    rw [← hL]
    exact (subGraphFrom_congr (hnames2.1.trans hnames1.1) (hnames2.2.trans hnames1.2) n).symm
  exact removeFold_updSet (hOn.2.2 d L hLsub hd hdn hdl)

/-- Witness for C3: on remote loss, the local dependent of `r1:arm:a` is
marked for update, the remote-origin node is closed, and the call reports a
change. -/
theorem updateRemoteResourceNames_removal_witness :
    (updateRemoteResourceNames gRemoteLoss r1Name rrEmpty).2 = true ∧
      closedAt (updateRemoteResourceNames gRemoteLoss r1Name rrEmpty).1 aUnderR1 ∧
      updSet (updateRemoteResourceNames gRemoteLoss r1Name rrEmpty).1 locName := by
  have h := updateRemoteResourceNames_removal gRemoteLoss r1Name rrEmpty aUnderR1
    (by decide) (by decide) (by intro m hm; simp [rrEmpty] at hm)
  exact ⟨h.1, h.2.1,
    h.2.2 locName [aUnderR1, locName] (by rfl) (by decide) (by decide) (by decide)⟩

/-- C1: `updateRemotesResourceNames` does not pull every connected remote:
once an earlier remote reports a change, Go's short-circuiting `||` skips the
`updateRemoteResourceNames` call for every later remote.  Concretely, with
remotes `r1` and `r2` both out of date, the cycle returns true, yet `r2`'s
resource `r2:arm:b` is never grafted — while invoking the skipped call by
hand would graft it. -/
theorem updateRemotesResourceNames_skips_later_remotes :
    (updateRemotesResourceNames envTwoRemotes gTwoRemotes).2 = true ∧
      (updateRemotesResourceNames envTwoRemotes gTwoRemotes).1.node bUnderR2 = none ∧
      ((updateRemoteResourceNames (updateRemotesResourceNames envTwoRemotes gTwoRemotes).1
          r2Name rr2).1.node bUnderR2).isSome = true := by
  refine ⟨?_, ?_, ?_⟩ <;> decide

theorem updSet_setNode_ne {g : Graph} {y : RName} {f : GNode → GNode} {d : RName}
    (hd : d ≠ y) : updSet g d → updSet (g.setNode y f) d := by
  rintro ⟨nd, hnd, hu⟩
  exact ⟨nd, by rw [node_setNode, if_neg hd]; exact hnd, hu⟩

/-- C7: during a complete-config pass, whenever `processResource` reports a
resource as newly built, every descendant of that node in the dependency
graph is marked for update via `SetNeedsUpdate` before the pass continues:
every non-remote-prefixed member of the node's subgraph other than the node
itself is marked, and therefore, under the graph invariant that
remote-origin nodes are only ever children of their remote node (so none
appears in a component's subgraph), every member other than the node
itself. -/
theorem completeConfigStep_marks_descendants (env : BuildEnv) (g : Graph)
    (resName : RName) (nd : GNode) (res : RHandle)
    (hn : g.node resName = some nd)
    (hrec : nd.needsReconfigure = true)
    (hapi : (resName.api.isComponent || resName.api.isService) = true)
    (hval : env.validateConfig nd.getConfig = true)
    (hmod : env.modProvides nd.getConfig = false ∨ env.modValidate nd.getConfig = true)
    (hbuild : processResource env nd.getConfig nd = .ok (res, true)) :
    (∀ d L, g.subGraphFrom resName = .ok L → d ∈ L → d ≠ resName →
        d.containsRemoteNames = false → updSet (completeConfigStep env g resName) d) ∧
    (∀ L, g.subGraphFrom resName = .ok L → (∀ d ∈ L, d.containsRemoteNames = false) →
        ∀ d ∈ L, d ≠ resName → updSet (completeConfigStep env g resName) d) := by
  have hs : (g.node resName).isSome := by rw [hn]; rfl
  obtain ⟨L0, hsub, hmc⟩ := markChildren_ok hs
  have hmodF : (env.modProvides nd.getConfig && !env.modValidate nd.getConfig) = false := by
    rcases hmod with h | h <;> simp [h]
  have hstep : completeConfigStep env g resName =
      (L0.foldl (markStep resName) g).setNode resName
        (fun nd2 => nd2.swap res nd.getConfig.model) := by
    simp [completeConfigStep, hn, hrec, hapi, hval, hmodF, hbuild, hmc]
  have hmain : ∀ d L, g.subGraphFrom resName = .ok L → d ∈ L → d ≠ resName →
      d.containsRemoteNames = false → updSet (completeConfigStep env g resName) d := by
    intro d L hL hd hdn hdl
    rw [hsub] at hL
    injection hL with hL
    subst hL
    have hds : (g.node d).isSome := by
      rw [node_isSome_iff]
      exact subGraphFrom_mem_names hsub hd
    rw [hstep]
    exact updSet_setNode_ne hdn (markFold_marks hd hdn hdl hds)
  exact ⟨hmain, fun L hL hloc d hd hdn => hmain d L hL hd hdn (hloc d hd)⟩

/-- Witness for C7: building the uninitialized component `c` marks its
dependent `d` for update. -/
theorem completeConfigStep_marks_descendants_witness :
    updSet (completeConfigStep envBuildOk gBuildChain cName) dName := by
  have h := completeConfigStep_marks_descendants envBuildOk gBuildChain cName
    (GNode.unconfigured (.res cConf)) (.localRes 100)
    (by rfl) (by decide) (by decide) (by decide) (Or.inl (by decide)) (by rfl)
  exact h.1 dName [cName, dName] (by rfl) (by decide) (by decide) (by decide)

theorem mergeStep_eq_conflict {st : List (API × ServiceDesc) × List (String × String)}
    {p : API × String} {d2 : ServiceDesc}
    (hl : typesLookup st.1 p.1 = some d2) (hne : d2.fqn ≠ p.2) :
    mergeRemoteAPIStep st p = (st.1, st.2 ++ [(d2.fqn, p.2)]) := by
  simp [mergeRemoteAPIStep, hl, hne]

theorem mergeStep_eq_same {st : List (API × ServiceDesc) × List (String × String)}
    {p : API × String} {d2 : ServiceDesc}
    (hl : typesLookup st.1 p.1 = some d2) (heq : d2.fqn = p.2) :
    mergeRemoteAPIStep st p = st := by
  simp [mergeRemoteAPIStep, hl, heq]

theorem mergeStep_eq_new {st : List (API × ServiceDesc) × List (String × String)}
    {p : API × String} (hl : typesLookup st.1 p.1 = none) :
    mergeRemoteAPIStep st p = (st.1 ++ [(p.1, ⟨p.2⟩)], st.2) := by
  simp [mergeRemoteAPIStep, hl]

theorem mergeStep_lookup {st : List (API × ServiceDesc) × List (String × String)}
    {p : API × String} {a : API} {d : ServiceDesc}
    (h : typesLookup st.1 a = some d) :
    typesLookup (mergeRemoteAPIStep st p).1 a = some d := by
  cases hl : typesLookup st.1 p.1 with
  | some d2 =>
    by_cases hne : d2.fqn = p.2
    · rw [mergeStep_eq_same hl hne]
      exact h
    · rw [mergeStep_eq_conflict hl hne]
      exact h
  | none =>
    rw [mergeStep_eq_new hl]
    have hne : p.1 ≠ a := by
      intro he
      rw [he, h] at hl
      exact Option.noConfusion hl
    unfold typesLookup at h ⊢
    rw [alookup_append, h]
    rfl

theorem mergeStep_logs {st : List (API × ServiceDesc) × List (String × String)}
    {p : API × String} {x : String × String} (h : x ∈ st.2) :
    x ∈ (mergeRemoteAPIStep st p).2 := by
  cases hl : typesLookup st.1 p.1 with
  | some d2 =>
    by_cases hne : d2.fqn = p.2
    · rw [mergeStep_eq_same hl hne]
      exact h
    · rw [mergeStep_eq_conflict hl hne]
      exact List.mem_append_left _ h
  | none =>
    rw [mergeStep_eq_new hl]
    exact h

theorem mergeFold_lookup {l : List (API × String)}
    {st : List (API × ServiceDesc) × List (String × String)} {a : API} {d : ServiceDesc}
    (h : typesLookup st.1 a = some d) :
    typesLookup (l.foldl mergeRemoteAPIStep st).1 a = some d := by
  induction l generalizing st with
  | nil => exact h
  | cons q t ih => exact ih (mergeStep_lookup h)

theorem mergeFold_logs {l : List (API × String)}
    {st : List (API × ServiceDesc) × List (String × String)} {x : String × String}
    (h : x ∈ st.2) : x ∈ (l.foldl mergeRemoteAPIStep st).2 := by
  induction l generalizing st with
  | nil => exact h
  | cons q t ih => exact ih (mergeStep_logs h)

theorem mergeFold_conflict_logged {l : List (API × String)}
    {st : List (API × ServiceDesc) × List (String × String)} {p : API × String}
    {a : API} {d : ServiceDesc}
    (hp : p ∈ l) (ha : p.1 = a) (hfqn : p.2 ≠ d.fqn)
    (h : typesLookup st.1 a = some d) :
    (d.fqn, p.2) ∈ (l.foldl mergeRemoteAPIStep st).2 := by
  induction l generalizing st with
  | nil => exact absurd hp (List.not_mem_nil p)
  | cons q t ih =>
    rcases List.mem_cons.1 hp with rfl | hp2
    · rw [List.foldl_cons]
      apply mergeFold_logs
      have hq : typesLookup st.1 p.1 = some d := ha ▸ h
      rw [mergeStep_eq_conflict hq (fun he => hfqn he.symm)]
      exact List.mem_append_right _ (List.mem_singleton.2 rfl)
    · exact ih hp2 (mergeStep_lookup h)

/-- C2 counterexample: with the remote node iterated before the native arm
resource, the remote's conflicting descriptor wins silently: although the
native registry knows a different fully-qualified service name for the arm
API (and a native arm resource is present), the returned list carries the
remote definition and no conflict is logged. -/
theorem resourceRPCAPIs_remote_first_wins :
    ResourceRPCAPIs envConflict regConflict gRemoteFirst =
      ([(armAPI, ⟨"remote.service.arm.v1.ArmService"⟩)], []) ∧
      regConflict.registeredAPIs armAPI = some ⟨"viam.component.arm.v1.ArmService"⟩ ∧
      aLocal ∈ gRemoteFirst.names := by
  exact ⟨rfl, rfl, by decide⟩

/-- C2 amended: conflicts are resolved to the first-seen descriptor, not
necessarily the local one: a remote descriptor for an API already in the
accumulated map never replaces the existing entry, and when the
fully-qualified names differ the conflict is logged; when the native
definition is merged before the remote, the local definition is returned and
the conflict logged. -/
theorem mergeResourceRPCAPIs_keeps_first_and_logs (rr : RemoteRobotData)
    (types : List (API × ServiceDesc)) (logs : List (String × String))
    (a : API) (d : ServiceDesc) (h : typesLookup types a = some d) :
    typesLookup (mergeResourceRPCAPIsWithRemote rr (types, logs)).1 a = some d ∧
    (∀ p ∈ rr.rpcAPIs, p.1 = a → p.2 ≠ d.fqn →
      (d.fqn, p.2) ∈ (mergeResourceRPCAPIsWithRemote rr (types, logs)).2) ∧
    ResourceRPCAPIs envConflict regConflict gNativeFirst =
      ([(armAPI, ⟨"viam.component.arm.v1.ArmService"⟩)],
       [("viam.component.arm.v1.ArmService", "remote.service.arm.v1.ArmService")]) := by
  refine ⟨mergeFold_lookup h, ?_, rfl⟩
  intro p hp ha hfqn
  exact mergeFold_conflict_logged hp ha hfqn h

/-- Witness for the amended C2: merging the conflicting remote into a map
already carrying the native arm descriptor keeps the native entry and logs
the clash. -/
theorem mergeResourceRPCAPIs_keeps_first_and_logs_witness :
    typesLookup (mergeResourceRPCAPIsWithRemote rrConflict
        ([(armAPI, ⟨"viam.component.arm.v1.ArmService"⟩)], [])).1 armAPI =
      some ⟨"viam.component.arm.v1.ArmService"⟩ ∧
    ("viam.component.arm.v1.ArmService", "remote.service.arm.v1.ArmService") ∈
      (mergeResourceRPCAPIsWithRemote rrConflict
        ([(armAPI, ⟨"viam.component.arm.v1.ArmService"⟩)], [])).2 := by
  have h := mergeResourceRPCAPIs_keeps_first_and_logs rrConflict
    [(armAPI, ⟨"viam.component.arm.v1.ArmService"⟩)] [] armAPI
    ⟨"viam.component.arm.v1.ArmService"⟩ (by rfl)
  exact ⟨h.1, h.2.1 (armAPI, "remote.service.arm.v1.ArmService") (by decide) rfl (by decide)⟩

/-- C4: `ResourceByName` resolves a present fully qualified name to the
node's resource (wrapping a failed last build as `NotAvailable`); an absent
unqualified name goes through partial match across remotes — a clash error
on more than one match, the unique match's resource (or `NotAvailable`) on
exactly one, not-found on zero; an absent remote-qualified name is
not-found without partial match. -/
theorem resourceByName_resolution (g : Graph) (name : RName) :
    (∀ nd, g.node name = some nd →
      ResourceByName g name = (match nd.resourceExc with
        | .ok r => .ok r
        | .error e => .error (.notAvailable name e))) ∧
    (g.node name = none → name.containsRemoteNames = true →
      ResourceByName g name = .error (.notFound name)) ∧
    (g.node name = none → name.containsRemoteNames = false →
      ((g.findNodesByShortNameAndAPI name).length > 1 →
        ResourceByName g name = .error (.remoteResourceClash name.name)) ∧
      (∀ k nd, g.findNodesByShortNameAndAPI name = [k] → g.node k = some nd →
        ResourceByName g name = (match nd.resourceExc with
          | .ok r => .ok r
          | .error e => .error (.notAvailable name e))) ∧
      (g.findNodesByShortNameAndAPI name = [] →
        ResourceByName g name = .error (.notFound name))) := by
  refine ⟨?_, ?_, ?_⟩
  · intro nd hn
    cases hre : nd.resourceExc with
    | ok r => simp [ResourceByName, hn, hre]
    | error e => simp [ResourceByName, hn, hre]
  · intro hn hr
    simp [ResourceByName, hn, hr]
  · intro hn hr
    refine ⟨?_, ?_, ?_⟩
    · intro hlen
      simp [ResourceByName, hn, hr, hlen]
    · intro k nd hk hnk
      cases hre : nd.resourceExc with
      | ok r => simp [ResourceByName, hn, hr, hk, hnk, hre]
      | error e => simp [ResourceByName, hn, hr, hk, hnk, hre]
    · intro hk
      simp [ResourceByName, hn, hr, hk]

/-- Witness for C4: with `r1` and `r2` both exposing `arm:a`, the
unqualified lookup clashes. -/
theorem resourceByName_resolution_witness :
    ResourceByName gClash ⟨armAPI, [], "a"⟩ = .error (.remoteResourceClash "a") := by
  have h := (resourceByName_resolution gClash ⟨armAPI, [], "a"⟩).2.2 (by rfl) (by decide)
  exact h.1 (by decide)

/-- C8: `ResourceNames` returns native resource names only: every returned
name is neither a remote-node entry nor in the rdk-internal namespace, and
every name of a native resource currently held by the manager appears in the
result. -/
theorem resourceNames_native_only (g : Graph) :
    (∀ n ∈ ResourceNames g, ¬n.api = remoteAPI ∧ ¬n.api.nsp = internalNamespace) ∧
    (∀ n, isHeldNative g n = true → n ∈ ResourceNames g) := by
  constructor
  · intro n hn
    have hf := List.of_mem_filter hn
    by_cases hre : n.api = remoteAPI ∨ n.api.nsp = internalNamespace
    · rw [if_pos hre] at hf
      exact absurd hf (by simp)
    · exact ⟨fun h => hre (Or.inl h), fun h => hre (Or.inr h)⟩
  · intro n hheld
    unfold isHeldNative at hheld
    have h1 : ¬n.api = remoteAPI := by
      intro h
      simp [h] at hheld
    have h2 : ¬n.api.nsp = internalNamespace := by
      intro h
      simp [h] at hheld
    cases hn : g.node n with
    | none => rw [hn] at hheld; simp at hheld
    | some nd =>
      rw [hn] at hheld
      have hres : nd.hasResource = true := by
        simpa [h1, h2] using hheld
      have hmem : n ∈ g.names := by
        rw [← node_isSome_iff, hn]
        rfl
      apply List.mem_filter.2
      refine ⟨hmem, ?_⟩
      rw [if_neg (by exact fun h => h.elim h1 h2), hn]
      exact hres

/-- Witness for C8: the natively held arm resource appears in
`ResourceNames`, and every returned name avoids the remote API and the
internal namespace. -/
theorem resourceNames_native_only_witness :
    aLocal ∈ ResourceNames gNativeFirst ∧
      (¬aLocal.api = remoteAPI ∧ ¬aLocal.api.nsp = internalNamespace) := by
  have h := resourceNames_native_only gNativeFirst
  have hmem := h.2 aLocal (by decide)
  exact ⟨hmem, h.1 aLocal hmem⟩

/-- C9: with `APPIMAGE` set, `APPRUN_ORIGINAL_PATH="/usr/bin"` and
`PATH="/tmp/.mount_x/bin:/usr/bin"`, after `cleanAppImageEnv`: `PATH` equals
`"/usr/bin"`, every variable named `ARGV0`, `ORIGIN` or starting with
`APPRUN`, `APPDIR`, `APPIMAGE`, `AIX_` is unset, and the working directory
equals the former value of `APPRUN_CWD`; with `APPIMAGE` unset the function
changes nothing and returns no error. -/
theorem cleanAppImageEnv_scrub :
    (cleanAppImageEnv (fun _ => true) envAppImage =
      .ok ⟨[("PATH", "/usr/bin"), ("HOME", "/home/user")], "/home/user"⟩) ∧
    (∀ st2, cleanAppImageEnv (fun _ => true) envAppImage = .ok st2 →
      envLookup st2.vars "PATH" = some "/usr/bin" ∧
      st2.cwd = "/home/user" ∧
      envLookup envAppImage.vars "APPRUN_CWD" = some "/home/user" ∧
      ∀ k, (isAppImageKey k = true ∨ k = "ARGV0" ∨ k = "ORIGIN") →
        envLookup st2.vars k = none) ∧
    (∀ (chdirOk : String → Bool) (st : OSEnv),
      envLookup st.vars "APPIMAGE" = none → cleanAppImageEnv chdirOk st = .ok st) := by
  have hmain : cleanAppImageEnv (fun _ => true) envAppImage =
      .ok ⟨[("PATH", "/usr/bin"), ("HOME", "/home/user")], "/home/user"⟩ := by decide
  refine ⟨hmain, ?_, ?_⟩
  · intro st2 hst
    rw [hmain] at hst
    injection hst with hst
    subst hst
    refine ⟨by decide, rfl, by decide, ?_⟩
    intro k hk
    have hkP : ¬("PATH" : String) = k := by
      rintro rfl
      rcases hk with h | h | h <;> exact absurd h (by decide)
    have hkH : ¬("HOME" : String) = k := by
      rintro rfl
      rcases hk with h | h | h <;> exact absurd h (by decide)
    simp [envLookup, alookup, hkP, hkH]
  · intro chdirOk st h
    simp [cleanAppImageEnv, h]

/-- Witness for C9: a non-AppImage environment passes through unchanged. -/
theorem cleanAppImageEnv_scrub_witness :
    cleanAppImageEnv (fun _ => false) envNoAppImage = .ok envNoAppImage ∧
      envLookup ((cleanAppImageEnv (fun _ => true) envAppImage).toOption.getD
        envNoAppImage).vars "APPDIR" = none := by
  constructor
  · exact cleanAppImageEnv_scrub.2.2 (fun _ => false) envNoAppImage (by decide)
  · have h := cleanAppImageEnv_scrub.2.1
      ⟨[("PATH", "/usr/bin"), ("HOME", "/home/user")], "/home/user"⟩
      cleanAppImageEnv_scrub.1
    rw [cleanAppImageEnv_scrub.1]
    exact h.2.2.2 "APPDIR" (Or.inl (by decide))

theorem runDecode_eq_done {decodeFn : List Nat → String → Except String Img}
    {st : LazyImage} (h : st.decodeDone = true) :
    st.runDecode decodeFn = (st, st.decodeErrV) := by
  simp [LazyImage.runDecode, h]

theorem runDecode_eq_ok {decodeFn : List Nat → String → Except String Img}
    {st : LazyImage} {img : Img} (h : st.decodeDone = false)
    (hd : decodeFn st.imgBytes st.mimeType = .ok img) :
    st.runDecode decodeFn =
      ({ st with decodeDone := true, decodedImage := some img,
                 decodeErrV := none, decodeCount := st.decodeCount + 1 }, none) := by
  simp [LazyImage.runDecode, h, hd]

theorem runDecode_eq_err {decodeFn : List Nat → String → Except String Img}
    {st : LazyImage} {e : String} (h : st.decodeDone = false)
    (hd : decodeFn st.imgBytes st.mimeType = .error e) :
    st.runDecode decodeFn =
      ({ st with decodeDone := true, decodedImage := none,
                 decodeErrV := some e, decodeCount := st.decodeCount + 1 }, some e) := by
  simp [LazyImage.runDecode, h, hd]

theorem lazyInv_new (decodeFn : List Nat → String → Except String Img)
    (bytes : List Nat) (mime : String) :
    LazyInv decodeFn bytes mime (newLazyEncodedImage bytes mime) :=
  ⟨rfl, rfl, Or.inl ⟨rfl, rfl, rfl, rfl⟩⟩

theorem lazyInv_runDecode {decodeFn : List Nat → String → Except String Img}
    {bytes : List Nat} {mime : String} {st : LazyImage}
    (h : LazyInv decodeFn bytes mime st) :
    LazyInv decodeFn bytes mime (st.runDecode decodeFn).1 := by
  obtain ⟨hb, hm, hcase⟩ := h
  rcases hcase with ⟨hd, hc, hi, he⟩ | ⟨hd, hc, hrest⟩
  · cases hdec : decodeFn bytes mime with
    | ok img =>
      rw [runDecode_eq_ok hd (by rw [hb, hm]; exact hdec)]
      exact ⟨hb, hm, Or.inr ⟨rfl, by simp [hc], by simp [hdec]⟩⟩
    | error e =>
      rw [runDecode_eq_err hd (by rw [hb, hm]; exact hdec)]
      exact ⟨hb, hm, Or.inr ⟨rfl, by simp [hc], by simp [hdec]⟩⟩
  · rw [runDecode_eq_done hd]
    exact ⟨hb, hm, Or.inr ⟨hd, hc, hrest⟩⟩

theorem colorModelM_state (decodeFn : List Nat → String → Except String Img)
    (st : LazyImage) :
    (st.colorModelM decodeFn).2 = (st.runDecode decodeFn).1 := by
  unfold LazyImage.colorModelM
  rcases h : st.runDecode decodeFn with ⟨st1, p⟩
  cases p with
  | none =>
    cases hdi : st1.decodedImage <;> simp [hdi]
  | some e => simp

theorem atM_state (decodeFn : List Nat → String → Except String Img)
    (x y : Nat) (st : LazyImage) :
    (LazyImage.atM decodeFn x y st).2 = (st.runDecode decodeFn).1 := by
  unfold LazyImage.atM
  rcases h : st.runDecode decodeFn with ⟨st1, p⟩
  cases p with
  | none =>
    cases hdi : st1.decodedImage <;> simp [hdi]
  | some e => simp

theorem boundsM_state (decodeFn : List Nat → String → Except String Img)
    (st : LazyImage) :
    (st.boundsM decodeFn).2 = st ∨ (st.boundsM decodeFn).2 = (st.runDecode decodeFn).1 := by
  unfold LazyImage.boundsM
  cases hd : st.decodedImage with
  | some img => exact Or.inl rfl
  | none =>
    right
    rcases h : st.runDecode decodeFn with ⟨st1, p⟩
    cases p with
    | none =>
      cases hdi : st1.decodedImage <;> simp [hdi]
    | some e => simp

theorem lazyInv_apply {decodeFn : List Nat → String → Except String Img}
    {bytes : List Nat} {mime : String} {st : LazyImage} {c : LazyCall}
    (h : LazyInv decodeFn bytes mime st) :
    LazyInv decodeFn bytes mime (lazyApply decodeFn st c) := by
  cases c with
  | colorModel =>
    simp only [lazyApply]
    rw [colorModelM_state]
    exact lazyInv_runDecode h
  | bounds =>
    simp only [lazyApply]
    rcases boundsM_state decodeFn st with hb | hb
    · rw [hb]; exact h
    · rw [hb]; exact lazyInv_runDecode h
  | atPixel x y =>
    simp only [lazyApply]
    rw [atM_state]
    exact lazyInv_runDecode h

theorem lazyInv_run {decodeFn : List Nat → String → Except String Img}
    {bytes : List Nat} {mime : String} {st : LazyImage} (cs : List LazyCall)
    (h : LazyInv decodeFn bytes mime st) :
    LazyInv decodeFn bytes mime (lazyRun decodeFn st cs) := by
  induction cs generalizing st with
  | nil => exact h
  | cons c t ih => exact ih (lazyInv_apply h)

theorem lazyFail_calls {decodeFn : List Nat → String → Except String Img}
    {bytes : List Nat} {mime : String} {st : LazyImage} {e : String}
    (h : LazyInv decodeFn bytes mime st) (hfail : decodeFn bytes mime = .error e) :
    (st.colorModelM decodeFn).1 = .error e ∧
      (st.boundsM decodeFn).1 = .error e ∧
      ∀ x y, (LazyImage.atM decodeFn x y st).1 = .error e := by
  obtain ⟨hb, hm, hcase⟩ := h
  have hrd : (st.runDecode decodeFn).2 = some e ∧ (st.runDecode decodeFn).1.decodedImage = none := by
    rcases hcase with ⟨hd, hc, hi, herr⟩ | ⟨hd, hc, hrest⟩
    · rw [runDecode_eq_err hd (by rw [hb, hm]; exact hfail)]
      exact ⟨rfl, rfl⟩
    · rw [runDecode_eq_done hd]
      rw [hfail] at hrest
      exact ⟨hrest.2, hrest.1⟩
  have hdi : st.decodedImage = none := by
    rcases hcase with ⟨hd, hc, hi, herr⟩ | ⟨hd, hc, hrest⟩
    · exact hi
    · rw [hfail] at hrest
      exact hrest.1
  refine ⟨?_, ?_, ?_⟩
  · unfold LazyImage.colorModelM
    rcases h2 : st.runDecode decodeFn with ⟨st1, p⟩
    rw [h2] at hrd
    simp at hrd
    rw [hrd.1]
  · unfold LazyImage.boundsM
    rw [hdi]
    rcases h2 : st.runDecode decodeFn with ⟨st1, p⟩
    rw [h2] at hrd
    simp at hrd
    rw [hrd.1]
  · intro x y
    unfold LazyImage.atM
    rcases h2 : st.runDecode decodeFn with ⟨st1, p⟩
    rw [h2] at hrd
    simp at hrd
    rw [hrd.1]

/-- C10: `MIMEType` and `RawData` return exactly the constructor arguments
and leave the state untouched (they never trigger decoding); across any
sequence of `ColorModel`, `Bounds` and `At` calls the underlying decode runs
at most once; and when the decoder fails, every such call panics with the
same stored error. -/
theorem lazyEncodedImage_decode_once (decodeFn : List Nat → String → Except String Img)
    (bytes : List Nat) (mime : String) (cs : List LazyCall) :
    ((lazyRun decodeFn (newLazyEncodedImage bytes mime) cs).mimeTypeM.1 = mime ∧
      (lazyRun decodeFn (newLazyEncodedImage bytes mime) cs).mimeTypeM.2 =
        lazyRun decodeFn (newLazyEncodedImage bytes mime) cs) ∧
    ((lazyRun decodeFn (newLazyEncodedImage bytes mime) cs).rawDataM.1 = bytes ∧
      (lazyRun decodeFn (newLazyEncodedImage bytes mime) cs).rawDataM.2 =
        lazyRun decodeFn (newLazyEncodedImage bytes mime) cs) ∧
    (lazyRun decodeFn (newLazyEncodedImage bytes mime) cs).decodeCount ≤ 1 ∧
    (∀ e, decodeFn bytes mime = .error e →
      ((lazyRun decodeFn (newLazyEncodedImage bytes mime) cs).colorModelM decodeFn).1 =
        .error e ∧
      ((lazyRun decodeFn (newLazyEncodedImage bytes mime) cs).boundsM decodeFn).1 =
        .error e ∧
      ∀ x y, (LazyImage.atM decodeFn x y
        (lazyRun decodeFn (newLazyEncodedImage bytes mime) cs)).1 = .error e) := by
  have hinv := lazyInv_run cs (lazyInv_new decodeFn bytes mime)
  obtain ⟨hb, hm, hcase⟩ := hinv
  refine ⟨⟨hm, rfl⟩, ⟨hb, rfl⟩, ?_, ?_⟩
  · rcases hcase with ⟨-, hc, -, -⟩ | ⟨-, hc, -⟩
    · rw [hc]; exact Nat.zero_le 1
    · rw [hc]
  · intro e hfail
    exact lazyFail_calls ⟨hb, hm, hcase⟩ hfail

/-- Witness for C10: with a failing decoder, a `Bounds` call after the first
failed decode panics with the stored error, the mime type is preserved, and
the decoder ran exactly once. -/
theorem lazyEncodedImage_decode_once_witness :
    ((lazyRun decodeFnFail (newLazyEncodedImage [1, 2] "image/png") [.bounds]).boundsM
        decodeFnFail).1 = .error "image: unknown format" ∧
      (lazyRun decodeFnFail (newLazyEncodedImage [1, 2] "image/png")
        [.bounds]).mimeTypeM.1 = "image/png" ∧
      (lazyRun decodeFnFail (newLazyEncodedImage [1, 2] "image/png")
        [.bounds]).decodeCount ≤ 1 := by
  have h := lazyEncodedImage_decode_once decodeFnFail [1, 2] "image/png" [.bounds]
  exact ⟨(h.2.2.2 "image: unknown format" (by rfl)).2.1, h.1.1, h.2.2.1⟩

theorem mem_ite_append {α : Type} {x : α} {l r : List α} {b : Prop} [Decidable b]
    (h : x ∈ l) : x ∈ (if b then l ++ r else l) := by
  split
  · exact List.mem_append_left r h
  · exact h

theorem mem_ite_webrtc {α : Type} {x : α} {l r1 r2 : List α} {b1 b2 : Prop}
    [Decidable b1] [Decidable b2] (h : x ∈ l) :
    x ∈ (if b1 then (if b2 then (l ++ r1) ++ r2 else l ++ r1) else l) := by
  split
  · split
    · exact List.mem_append_left r2 (List.mem_append_left r1 h)
    · exact List.mem_append_left r1 h
  · exact h

/-- C6: when a remote's `Auth.Credentials` is nil, the assembled dial
options carry an explicit empty entity-credentials entry; and when the dial
fails with the insecure-with-credentials error while `allowInsecureCreds` is
not set, `processRemote` returns the guidance error naming
`-allow-insecure-creds` for CLI callers and `Config.AllowInsecureCreds`
otherwise. -/
theorem remoteDial_credentials_and_guidance :
    (∀ (config : RemoteConf) (opts : ManagerOpts), config.auth.credentials = none →
      DialOption.entityCredentials "" ⟨"", ""⟩ ∈ remoteDialOptions config opts) ∧
    (∀ (dialOutcome : RemoteConf → List DialOption → DialResult)
        (config : RemoteConf) (opts : ManagerOpts),
      dialOutcome config (remoteDialOptions config opts) = .errInsecureWithCredentials →
      opts.allowInsecureCreds = false →
      processRemote dialOutcome config opts = .error (.connectFailed config.address
        (if opts.fromCommand then
          "must use -allow-insecure-creds flag to connect to a non-TLS secured robot"
         else
          "must use Config.AllowInsecureCreds to connect to a non-TLS secured robot"))) := by
  constructor
  · intro config opts h
    simp only [remoteDialOptions, h]
    exact mem_ite_webrtc (mem_ite_append (mem_ite_append
      (List.mem_append_right _ (List.mem_singleton.2 rfl))))
  · intro dialOutcome config opts hd ha
    simp only [processRemote, hd]
    cases hf : opts.fromCommand <;> simp [hf]

/-- Witness for C6: a credential-less remote config yields the empty
entity-credentials entry, and a library-mode insecure dial failure surfaces
the `Config.AllowInsecureCreds` guidance. -/
theorem remoteDial_credentials_and_guidance_witness :
    DialOption.entityCredentials "" ⟨"", ""⟩ ∈ remoteDialOptions remoteConfNoCreds optsPlain ∧
      processRemote dialInsecure remoteConfNoCreds optsPlain =
        .error (.connectFailed "addr1"
          "must use Config.AllowInsecureCreds to connect to a non-TLS secured robot") := by
  refine ⟨remoteDial_credentials_and_guidance.1 remoteConfNoCreds optsPlain (by rfl), ?_⟩
  have h2 := remoteDial_credentials_and_guidance.2 dialInsecure remoteConfNoCreds
    optsPlain (by rfl) (by rfl)
  simpa [remoteConfNoCreds, optsPlain] using h2

theorem updServiceFold (u : Bool) (l : List RConfig) (st : UpdState) :
    l.foldl (updServiceStep u) st =
      ⟨l.foldl (gServiceStep u) st.g, st.pm,
       st.errs ++ (l.filter (fun s => u && isShellSvc s)).map
         (fun _ => RErr.shellServiceDisabled)⟩ := by
  induction l generalizing st with
  | nil => simp
  | cons s t ih =>
    rw [List.foldl_cons, List.foldl_cons, ih]
    by_cases hc : (u && isShellSvc s) = true
    · simp [updServiceStep, gServiceStep, hc, List.filter_cons]
    · simp [updServiceStep, gServiceStep, hc, List.filter_cons]

theorem updCompFold (l : List RConfig) (st : UpdState) :
    l.foldl updComponentStep st = ⟨l.foldl gCompStep st.g, st.pm, st.errs⟩ := by
  induction l generalizing st with
  | nil => simp
  | cons c t ih =>
    rw [List.foldl_cons, List.foldl_cons, ih]
    simp [updComponentStep, gCompStep]

theorem updRemFold (l : List RemoteConf) (st : UpdState) :
    l.foldl updRemoteStep st = ⟨l.foldl gRemStep st.g, st.pm, st.errs⟩ := by
  induction l generalizing st with
  | nil => simp
  | cons r t ih =>
    rw [List.foldl_cons, List.foldl_cons, ih]
    simp [updRemoteStep, gRemStep]

theorem updAddedProcUntrusted (ps : List ProcessConf) (st : UpdState) :
    updAddedProcesses true ps st =
      ⟨st.g, st.pm, st.errs ++ if ps.isEmpty then [] else [RErr.processesDisabled]⟩ := by
  cases ps <;> simp [updAddedProcesses]

theorem updModifiedProcUntrusted (ps : List ProcessConf) (st : UpdState) :
    updModifiedProcesses true ps st =
      ⟨st.g, st.pm, st.errs ++ if ps.isEmpty then [] else [RErr.processesDisabled]⟩ := by
  cases ps <;> simp [updModifiedProcesses]

theorem updAddedProcNil (u : Bool) (st : UpdState) :
    updAddedProcesses u [] st = st := rfl

theorem updModifiedProcNil (u : Bool) (st : UpdState) :
    updModifiedProcesses u [] st = st := rfl

theorem gServiceFold_filter (l : List RConfig) (g : Graph) :
    l.foldl (gServiceStep true) g =
      (l.filter (fun s => !isShellSvc s)).foldl (gServiceStep false) g := by
  induction l generalizing g with
  | nil => rfl
  | cons s t ih =>
    by_cases hs : isShellSvc s = true
    · simp [List.filter_cons, hs, gServiceStep, ih]
    · simp [List.filter_cons, hs, gServiceStep, ih]

theorem removeChildFold_node (name : RName) (l : List RName) (g : Graph) (n : RName) :
    (l.foldl (fun g p => g.removeChild name p) g).node n = g.node n := by
  induction l generalizing g with
  | nil => rfl
  | cons p t ih =>
    rw [List.foldl_cons, ih]
    rfl

theorem markResourceForUpdate_node_other {g : Graph} {name n : RName} {cfg : NodeCfg}
    (h : name ≠ n) : (markResourceForUpdate g name cfg).node n = g.node n := by
  cases hn : g.node name with
  | some nd =>
    simp only [markResourceForUpdate, hn]
    rw [removeChildFold_node, node_setNode, if_neg (fun he => h he.symm)]
  | none =>
    cases ha : g.addNode name (GNode.unconfigured cfg) with
    | ok g1 =>
      simp only [markResourceForUpdate, hn, ha]
      obtain ⟨hnodes, -, -⟩ := addNode_ok ha
      unfold Graph.node
      rw [hnodes, alookup_append]
      have hsingle : alookup [(name, GNode.unconfigured cfg)] n = none := by
        simp [alookup, h]
      rw [hsingle]
      cases alookup g.nodes n <;> rfl
    | error e =>
      simp only [markResourceForUpdate, hn, ha]

theorem gSvcFold_shell_node (l : List RConfig) (g : Graph) (n : RName)
    (hn : n.api = shellAPI) : (l.foldl (gServiceStep true) g).node n = g.node n := by
  induction l generalizing g with
  | nil => rfl
  | cons s t ih =>
    rw [List.foldl_cons, ih]
    by_cases hs : isShellSvc s = true
    · simp [gServiceStep, hs]
    · have hne : s.resourceName ≠ n := by
        intro he
        apply hs
        unfold isShellSvc
        rw [he, hn]
        simp
      simp [gServiceStep, hs, markResourceForUpdate_node_other hne]

theorem gCompFold_node (l : List RConfig) (g : Graph) (n : RName)
    (hc : ∀ c ∈ l, c.resourceName ≠ n) : (l.foldl gCompStep g).node n = g.node n := by
  induction l generalizing g with
  | nil => rfl
  | cons c t ih =>
    rw [List.foldl_cons, ih _ (fun c2 hc2 => hc c2 (List.mem_cons_of_mem c hc2))]
    exact markResourceForUpdate_node_other (hc c (List.mem_cons_self c t))

theorem gRemFold_node (l : List RemoteConf) (g : Graph) (n : RName)
    (hn : n.api = shellAPI) : (l.foldl gRemStep g).node n = g.node n := by
  induction l generalizing g with
  | nil => rfl
  | cons r t ih =>
    rw [List.foldl_cons, ih]
    refine markResourceForUpdate_node_other (fun he => ?_)
    have : remoteAPI = shellAPI := by
      rw [← hn, ← he]
      rfl
    exact absurd this (by decide)

theorem count_map_const {α : Type} (l : List α) (e : RErr) :
    ((l.map (fun _ => e)).count e) = l.length := by
  induction l with
  | nil => rfl
  | cons a t ih => simp [List.count_cons, ih]

/-- C5: with `untrustedEnv` set, `updateResources` returns an error carrying
one `errShellServiceDisabled` per added or modified shell service and
`errProcessesDisabled` when any process is added or modified; the rejected
shell services are not added to the graph nor the processes to the process
manager, while every other added or modified component, service and remote
is marked for update exactly as in a trusted run of the diff without those
entries. -/
theorem updateResources_untrusted_policy (opts : ManagerOpts) (conf : ConfigDiff)
    (g : Graph) (pm : List String) (h : opts.untrustedEnv = true) :
    (updateResources opts conf g pm).pm = pm ∧
    (updateResources opts conf g pm).errs.count RErr.shellServiceDisabled =
      ((conf.added.services ++ conf.modified.services).filter isShellSvc).length ∧
    (RErr.processesDisabled ∈ (updateResources opts conf g pm).errs ↔
      (conf.added.processes ≠ [] ∨ conf.modified.processes ≠ [])) ∧
    (∀ n, n.api = shellAPI →
      (∀ c ∈ conf.added.components ++ conf.modified.components, c.resourceName ≠ n) →
      (updateResources opts conf g pm).g.node n = g.node n) ∧
    (updateResources opts conf g pm).g =
      (updateResources { opts with untrustedEnv := false } (stripUntrusted conf) g pm).g := by
  simp only [updateResources, h, stripUntrusted, updServiceFold, updCompFold, updRemFold,
    updAddedProcUntrusted, updModifiedProcUntrusted, updAddedProcNil, updModifiedProcNil]
  refine ⟨trivial, ?_, ?_, ?_, ?_⟩
  · split_ifs <;>
      simp [List.count_append, count_map_const, List.filter_append, List.count_cons]
  · by_cases hA : conf.added.processes = [] <;> by_cases hM : conf.modified.processes = [] <;>
      simp [hA, hM, List.mem_append]
  · intro n hn hcomp
    have hAC : ∀ c ∈ conf.added.components, c.resourceName ≠ n :=
      fun c hc => hcomp c (List.mem_append_left _ hc)
    have hMC : ∀ c ∈ conf.modified.components, c.resourceName ≠ n :=
      fun c hc => hcomp c (List.mem_append_right _ hc)
    rw [gRemFold_node _ _ _ hn, gSvcFold_shell_node _ _ _ hn, gCompFold_node _ _ _ hMC,
      gRemFold_node _ _ _ hn, gCompFold_node _ _ _ hAC, gSvcFold_shell_node _ _ _ hn]
  · simp only [gServiceFold_filter]

/-- Witness for C5: an untrusted diff with a shell service, a motion
service, an arm component and a process rejects the shell service and the
process, leaves the process manager empty, and still marks the component
and the motion service. -/
theorem updateResources_untrusted_policy_witness :
    (updateResources optsUntrusted diffUntrusted ⟨[], []⟩ []).pm = [] ∧
      (updateResources optsUntrusted diffUntrusted ⟨[], []⟩ []).errs.count
        RErr.shellServiceDisabled = 1 ∧
      (RErr.processesDisabled ∈ (updateResources optsUntrusted diffUntrusted ⟨[], []⟩ []).errs) ∧
      (updateResources optsUntrusted diffUntrusted ⟨[], []⟩ []).g.node
        shellConf.resourceName = none ∧
      (updateResources optsUntrusted diffUntrusted ⟨[], []⟩ []).g =
        (updateResources { optsUntrusted with untrustedEnv := false }
          (stripUntrusted diffUntrusted) ⟨[], []⟩ []).g := by
  have h := updateResources_untrusted_policy optsUntrusted diffUntrusted ⟨[], []⟩ [] (by decide)
  refine ⟨h.1, by rw [h.2.1]; decide, h.2.2.1.2 (Or.inl (by decide)), ?_, h.2.2.2.2⟩
  have h4 := h.2.2.2.1 shellConf.resourceName (by decide)
    (show ∀ c ∈ diffUntrusted.added.components ++ diffUntrusted.modified.components,
      c.resourceName ≠ shellConf.resourceName by decide)
  rw [h4]
  rfl

end RDK
